import Mathlib

/-!
Verification development for the `mdln` event-propagation core
(`src/src/events/Listenable.ts`).

The embedding follows the source closely:
* `EventListener` mirrors the `EventListener` record (constructor argument
  order `callback, capture, passive, removed, once`); callbacks are opaque
  identity-comparable handles, modelled as `Nat` ids.
* Registries are JS `Map`s, modelled as insertion-ordered association lists:
  `Registry` maps an event type to its listener bucket, `Internal` maps an
  object uid to its registry (`internal.listeners` in the source).
* `EventBinder` mirrors the binder (`DispatchContext`): phase, target,
  handler, passive, stopped.
* The behaviour of a listener callback is an effect description
  (`CallbackAct`): it may call `preventDefault`, `stopPropagation`, both,
  throw, or do nothing.  A map `cbs : Nat → CallbackAct` gives the behaviour
  of each callback handle.
* `DispatchState` carries the binder, the `prevented` flag of the shared
  event, the mutable registry store, and a ghost `trace` recording every
  callback invocation (handler, callback, phase, capture flag, once flag)
  in order.
* Throwing (JS `throw`) is modelled with `Except`; the error value carries
  the state at the moment of the throw, since the registry store survives an
  exception in JS.
* `getAncestors` is an external collaborator (not part of this core); the
  ancestor chain, nearest parent first, is passed to `dispatchEvent` as a
  parameter, exactly as the source consumes it.
* The event `scope` payload is opaque and never read by the dispatch logic,
  so it is omitted from the state.
-/

namespace Mdln

/-- Modelled from the spec: the `EventPhase` enum (`src` only imports
`EventPhase.ts`; §2 gives the closed tag set `NONE`, `CAPTURING`,
`AT_TARGET`, `BUBBLING`; the source uses these constants). -/
inductive EventPhase where
  | NONE
  | CAPTURING_PHASE
  | AT_TARGET
  | BUBBLING_PHASE
deriving Repr, DecidableEq

/-- One registered listener (source `EventListener`, constructed in `listen`
as `new EventListener(callback, capture, passive, false, once)`). -/
structure EventListener where
  callback : Nat
  capture : Bool
  passive : Bool
  removed : Bool
  once : Bool
deriving Repr, DecidableEq

/-- A listener bucket: the ordered array stored for one event type. -/
abbrev Bucket := List EventListener

/-- A per-object listeners map (`Map<string, Array<EventListener>>`). -/
abbrev Registry := List (String × Bucket)

/-- The global store `internal.listeners : Map<Listenable, Registry>`,
keyed by object uid. -/
abbrev Internal := List (Nat × Registry)

/-- JS `Map.get` on a registry. -/
def lookupS : Registry → String → Option Bucket
  | [], _ => none
  | (k, v) :: rest, key => if k = key then some v else lookupS rest key

/-- JS `Map.set` on a registry: replaces the value in place when the key is
present, otherwise appends (JS maps preserve insertion order). -/
def setS : Registry → String → Bucket → Registry
  | [], key, v => [(key, v)]
  | (k, v') :: rest, key, v =>
    if k = key then (key, v) :: rest else (k, v') :: setS rest key v

/-- JS `Map.delete` on a registry. -/
def deleteS : Registry → String → Registry
  | [], _ => []
  | (k, v) :: rest, key =>
    if k = key then rest else (k, v) :: deleteS rest key

/-- JS `Map.get` on the global store. -/
def lookupN : Internal → Nat → Option Registry
  | [], _ => none
  | (k, v) :: rest, key => if k = key then some v else lookupN rest key

/-- JS `Map.set` on the global store. -/
def setN : Internal → Nat → Registry → Internal
  | [], key, v => [(key, v)]
  | (k, v') :: rest, key, v =>
    if k = key then (key, v) :: rest else (k, v') :: setN rest key v

/-- The event binder shared by the whole dispatch (source `EventBinder`,
spec `DispatchContext`): phase, immutable target, current handler, passive
mirror and the monotonic stopped latch. -/
structure EventBinder where
  phase : EventPhase
  target : Nat
  handler : Nat
  passive : Bool
  stopped : Bool
deriving Repr, DecidableEq

/-- Ghost record of one callback invocation. -/
structure FireRec where
  handler : Nat
  callback : Nat
  phase : EventPhase
  capture : Bool
  once : Bool
deriving Repr, DecidableEq

/-- The full mutable state threaded through one dispatch: binder, shared
`prevented` flag of the event, the registry store and the invocation trace. -/
structure DispatchState where
  binder : EventBinder
  prevented : Bool
  internal : Internal
  trace : List FireRec
deriving Repr, DecidableEq

/-- Effect description of a listener callback. -/
inductive CallbackAct where
  | nop
  | prevent
  | stop
  | preventStop
  | throwErr
deriving Repr, DecidableEq

/-- The two ways a dispatch can throw: the missing-registry invariant
violation (`LISTENERS_MAP_MISSED`) raised by the core itself, or an
exception escaping from a listener callback. -/
inductive DispatchError where
  | registryMissing
  | callbackError
deriving Repr, DecidableEq

/-- Result of a state-transforming step; a thrown error carries the state at
the moment of the throw (the JS heap survives the exception). -/
abbrev DResult := Except (DispatchError × DispatchState) DispatchState

/-- Modelled from the spec: `Event.preventDefault` (`Event.ts` is not under
`src`, only its test suite is; §4.3: sets `prevented = true` unless
`context.passive` is currently true, in which case it is a no-op — confirmed
by the `passive behavior is valid` test). -/
def preventDefault (s : DispatchState) : DispatchState :=
  if s.binder.passive then s else { s with prevented := true }

/-- Modelled from the spec: `Event.stopPropagation` (`Event.ts` is not under
`src`; §4.3: sets `stopped = true` on the shared context unless
`context.passive` is true; monotonic latch — confirmed by the
`passive behavior is valid` test). -/
def stopPropagation (s : DispatchState) : DispatchState :=
  if s.binder.passive then s
  else { s with binder := { s.binder with stopped := true } }

/-- Run one callback: apply its effect description to the shared state. -/
def runCallback (act : CallbackAct) (s : DispatchState) : DResult :=
  match act with
  | .nop => .ok s
  | .prevent => .ok (preventDefault s)
  | .stop => .ok (stopPropagation s)
  | .preventStop => .ok (stopPropagation (preventDefault s))
  | .throwErr => .error (.callbackError, s)

/-- The scan-and-splice loop of `unlisten` (source lines 490–517): walks the
bucket by index, marks the matching non-removed entry `removed = true` and
immediately splices it out (`listeners.splice(i, 1)`), then continues with
the incremented index.  Marking followed by an immediate splice is, on
values, just the splice. -/
def spliceLoop (cb : Nat) (cap : Bool) : Nat → Nat → Bucket → Bucket
  | 0, _, bkt => bkt
  | fuel + 1, i, bkt =>
    match bkt[i]? with
    | none => bkt
    | some l =>
      if !l.removed && l.callback == cb && l.capture == cap then
        spliceLoop cb cap fuel (i + 1) (bkt.eraseIdx i)
      else
        spliceLoop cb cap fuel (i + 1) bkt

/-- `Listenable.unlisten` (source lines 445–533).  `none` models the
`LISTENERS_MAP_MISSED` throw when the object's registry is missing; a
missing bucket is a silent no-op; the bucket is deleted from the registry
once it is empty. -/
def unlistenCore (internal : Internal) (obj : Nat) (typ : String)
    (cb : Nat) (cap : Bool) : Option Internal :=
  match lookupN internal obj with
  | none => none
  | some reg =>
    match lookupS reg typ with
    | none => some internal
    | some bkt =>
      let bkt2 := spliceLoop cb cap bkt.length 0 bkt
      let reg2 := if bkt2.isEmpty then deleteS reg typ else setS reg typ bkt2
      some (setN internal obj reg2)

/-- The update loop of `listen` (source lines 361–391): updates the
`passive`/`once` flags of every non-removed entry with the same
`(callback, capture)` key; the second component reports whether a match was
found (the source's `listener` variable becoming non-null). -/
def listenUpdate (cb : Nat) (cap passive once : Bool) :
    Bucket → Bucket × Bool
  | [] => ([], false)
  | l :: rest =>
    let r := listenUpdate cb cap passive once rest
    if !l.removed && l.callback == cb && l.capture == cap then
      ({ l with passive := passive, once := once } :: r.1, true)
    else
      (l :: r.1, r.2)

/-- `Listenable.listen` (source lines 287–433).  `none` models the
`LISTENERS_MAP_MISSED` throw.  A missing bucket is created (the source
inserts an empty array first, then pushes); when no equivalent non-removed
entry exists a new `EventListener(callback, capture, passive, false, once)`
is appended. -/
def listenCore (internal : Internal) (obj : Nat) (typ : String)
    (cb : Nat) (cap passive once : Bool) : Option Internal :=
  match lookupN internal obj with
  | none => none
  | some reg =>
    let bkt0 := (lookupS reg typ).getD []
    let r := listenUpdate cb cap passive once bkt0
    let bkt2 := if r.2 then r.1 else r.1 ++ [⟨cb, cap, passive, false, once⟩]
    some (setN internal obj (setS reg typ bkt2))

/-- Binder mutation done at the head of each traversal step
(`binder.phase = ...; binder.handler = ...`). -/
def setPhaseHandler (ph : EventPhase) (h : Nat) (s : DispatchState) :
    DispatchState :=
  { s with binder := { s.binder with phase := ph, handler := h } }

/-- The passive alignment in `fireListeners` (source lines 70–78):
`if (binder.passive !== listener.passive) binder.passive = listener.passive`. -/
def alignPassive (l : EventListener) (s : DispatchState) : DispatchState :=
  if s.binder.passive != l.passive then
    { s with binder := { s.binder with passive := l.passive } }
  else s

/-- The live bucket the `fireListeners` loop is iterating: the source holds
a reference to the array stored in the handler's registry, which the
`once`-removal path mutates in place. -/
def currentBucket (typ : String) (s : DispatchState) : Bucket :=
  match lookupN s.internal s.binder.handler with
  | none => []
  | some reg => (lookupS reg typ).getD []

/-- The invocation record appended to the ghost trace when a listener is
fired in state `s`. -/
def mkRec (l : EventListener) (s : DispatchState) : FireRec :=
  ⟨s.binder.handler, l.callback, s.binder.phase, l.capture, l.once⟩

/-- Ghost step: record the invocation of listener `l` in the trace. -/
def pushRec (l : EventListener) (s : DispatchState) : DispatchState :=
  { s with trace := s.trace ++ [mkRec l s] }

/-- The body of one fired iteration of the `fireListeners` loop (source
lines 70–105): align the binder's passive flag, invoke the callback (ghost:
record the invocation), and, for a `once` listener, remove it via the same
path as `unlisten` — which may itself throw `LISTENERS_MAP_MISSED`. -/
def fireStep (cbs : Nat → CallbackAct) (cap : Bool) (typ : String)
    (l : EventListener) (s : DispatchState) : DResult :=
  match runCallback (cbs l.callback) (pushRec l (alignPassive l s)) with
  | .error e => .error e
  | .ok s3 =>
    match (if l.once then
             unlistenCore s3.internal s3.binder.handler typ l.callback cap
           else some s3.internal) with
    | none => .error (.registryMissing, s3)
    | some int2 => .ok { s3 with internal := int2 }

/-- The indexed loop of `fireListeners` (source lines 63–106).  Reading the
bucket through the state at every step mirrors iterating the live JS array
which `unlisten` splices in place.  The fuel equals the bucket length at
entry; the bucket never grows during the loop, so the fuel never runs out
before the index check `i < listeners.length` fails. -/
def fireLoop (cbs : Nat → CallbackAct) (cap : Bool) (typ : String) :
    Nat → Nat → DispatchState → DResult
  | 0, _, s => .ok s
  | fuel + 1, i, s =>
    match (currentBucket typ s)[i]? with
    | none => .ok s
    | some l =>
      if l.capture == cap && !l.removed && !s.binder.stopped then
        match fireStep cbs cap typ l s with
        | .error e => .error e
        | .ok s2 => fireLoop cbs cap typ fuel (i + 1) s2
      else
        fireLoop cbs cap typ fuel (i + 1) s

/-- `fireListeners` (source lines 54–108): resolves the handler's registry
(throwing `LISTENERS_MAP_MISSED` when missing) and, when a bucket for the
event type exists, runs the indexed loop over it. -/
def fireListeners (cbs : Nat → CallbackAct) (cap : Bool) (typ : String)
    (s : DispatchState) : DResult :=
  match lookupN s.internal s.binder.handler with
  | none => .error (.registryMissing, s)
  | some reg =>
    match lookupS reg typ with
    | none => .ok s
    | some bkt => fireLoop cbs cap typ bkt.length 0 s

/-- The state built at the head of `dispatchEvent`:
`new EventBinder(EventPhase.NONE, node, node)` plus a fresh event. -/
def initState (node : Nat) (internal : Internal) : DispatchState :=
  { binder :=
      { phase := .NONE, target := node, handler := node,
        passive := false, stopped := false },
    prevented := false, internal := internal, trace := [] }

/-- The capturing cycle (source lines 148–160): the source iterates the
ancestor array from its last index down to 0, i.e. visits the reversed
chain front to back; each step sets the phase and handler and fires the
capture listeners.  There is no stopped check in the loop head. -/
def runCapture (cbs : Nat → CallbackAct) (typ : String) :
    List Nat → DispatchState → DResult
  | [], s => .ok s
  | a :: rest, s =>
    match fireListeners cbs true typ (setPhaseHandler .CAPTURING_PHASE a s) with
    | .error e => .error e
    | .ok s2 => runCapture cbs typ rest s2

/-- The at-target capture step (source lines 163–175), guarded by
`if (!binder.stopped)`. -/
def runAtTargetCapture (cbs : Nat → CallbackAct) (typ : String) (node : Nat)
    (s : DispatchState) : DResult :=
  if s.binder.stopped then .ok s
  else fireListeners cbs true typ (setPhaseHandler .AT_TARGET node s)

/-- The at-target bubble step (source lines 178–180), guarded by
`if (!binder.stopped)`; the source does not change the phase or handler
here. -/
def runAtTargetBubble (cbs : Nat → CallbackAct) (typ : String)
    (s : DispatchState) : DResult :=
  if s.binder.stopped then .ok s
  else fireListeners cbs false typ s

/-- The bubbling cycle body (source lines 184–198): iterates the ancestor
chain front to back with `!binder.stopped && i < ancestors.length` as loop
condition. -/
def runBubble (cbs : Nat → CallbackAct) (typ : String) :
    List Nat → DispatchState → DResult
  | [], s => .ok s
  | a :: rest, s =>
    if s.binder.stopped then .ok s
    else
      match fireListeners cbs false typ (setPhaseHandler .BUBBLING_PHASE a s) with
      | .error e => .error e
      | .ok s2 => runBubble cbs typ rest s2

/-- The bubbling phase with its outer `if (!binder.stopped)` guard
(source lines 183–199). -/
def runBubblePhase (cbs : Nat → CallbackAct) (typ : String) (anc : List Nat)
    (s : DispatchState) : DResult :=
  if s.binder.stopped then .ok s else runBubble cbs typ anc s

/-- `dispatchEvent` (source lines 119–207): the four-phase pipeline over the
ancestor chain `anc` (nearest parent first, as `getAncestors` returns it),
finishing by resetting the phase to `NONE` and returning `!binder.stopped`. -/
def dispatchEvent (cbs : Nat → CallbackAct) (anc : List Nat) (node : Nat)
    (typ : String) (internal : Internal) :
    Except (DispatchError × DispatchState) (Bool × DispatchState) :=
  match runCapture cbs typ anc.reverse (initState node internal) with
  | .error e => .error e
  | .ok s =>
    match runAtTargetCapture cbs typ node s with
    | .error e => .error e
    | .ok s =>
      match runAtTargetBubble cbs typ s with
      | .error e => .error e
      | .ok s =>
        match runBubblePhase cbs typ anc s with
        | .error e => .error e
        | .ok s =>
          .ok (!s.binder.stopped,
               { s with binder := { s.binder with phase := .NONE } })

/-- `Listenable.dispatch` (source lines 550–568): wraps `dispatchEvent` in
`try/finally` whose `finally` only stops the log thread — it catches
nothing, so the result (value or exception) is exactly that of
`dispatchEvent`. -/
def dispatch (cbs : Nat → CallbackAct) (anc : List Nat) (node : Nat)
    (typ : String) (internal : Internal) :
    Except (DispatchError × DispatchState) (Bool × DispatchState) :=
  dispatchEvent cbs anc node typ internal

/-- One registry-affecting operation of the public interface. -/
inductive Op where
  | listen (obj : Nat) (typ : String) (cb : Nat) (cap passive once : Bool)
  | unlisten (obj : Nat) (typ : String) (cb : Nat) (cap : Bool)
  | dispatch (cbs : Nat → CallbackAct) (anc : List Nat) (node : Nat)
      (typ : String)

/-- Execute one operation against the registry store.  A thrown
`LISTENERS_MAP_MISSED` in `listen`/`unlisten` happens before any mutation,
so the store is unchanged; a throw inside `dispatch` leaves the mutations
already performed in place (the error carries the state at the throw). -/
def execOp (internal : Internal) : Op → Internal
  | .listen obj typ cb cap passive once =>
    (listenCore internal obj typ cb cap passive once).getD internal
  | .unlisten obj typ cb cap =>
    (unlistenCore internal obj typ cb cap).getD internal
  | .dispatch cbs anc node typ =>
    match dispatchEvent cbs anc node typ internal with
    | .ok p => p.2.internal
    | .error e => e.2.internal

/-- Execute a sequence of operations. -/
def execOps (ops : List Op) (internal : Internal) : Internal :=
  ops.foldl execOp internal

/-- Decidable statement of the registry invariant: no bucket with zero
entries exists in any object's registry. -/
def noEmptyB (internal : Internal) : Bool :=
  internal.all (fun p => p.2.all (fun q => !q.2.isEmpty))

/-- The state carried by a dispatch outcome: the final state on success,
the at-throw state on error. -/
def resultState (r : DResult) : DispatchState :=
  match r with
  | .ok s => s
  | .error e => e.2

/-- All records of a trace segment were fired on handler `a`, in phase
`ph`, on listeners registered with capture flag `cap`. -/
def phaseRecs (a : Nat) (ph : EventPhase) (cap : Bool)
    (t : List FireRec) : Prop :=
  ∀ r ∈ t, r.handler = a ∧ r.phase = ph ∧ r.capture = cap

/-- The key predicate of `listen`/`unlisten`: a live entry with the same
`(callback, capture)` identity. -/
def matchKey (cb : Nat) (cap : Bool) (l : EventListener) : Bool :=
  !l.removed && l.callback == cb && l.capture == cap

/-- The flag rewrite `listen` applies to a matching entry. -/
def updKey (cb : Nat) (cap passive once : Bool) (l : EventListener) :
    EventListener :=
  if matchKey cb cap l then { l with passive := passive, once := once } else l

/-- Example scenario: a single object with one bubble listener that calls
`preventDefault`. -/
def intPrevent : Internal := [(0, [("x", [⟨1, false, false, false, false⟩])])]

/-- Final state of dispatching `"x"` on `intPrevent`. -/
def stPrevent : DispatchState :=
  ⟨⟨.NONE, 0, 0, false, false⟩, true, intPrevent,
    [⟨0, 1, .AT_TARGET, false, false⟩]⟩

/-- Example state whose binder is in passive mode. -/
def stPassive : DispatchState := ⟨⟨.AT_TARGET, 0, 0, true, false⟩, false, [], []⟩

/-- Example scenario: child `0` with parent `1`, each carrying one capture
and one bubble listener for `"y"`. -/
def intTwoLevel : Internal :=
  [(0, [("y", [⟨3, true, false, false, false⟩,
               ⟨4, false, false, false, false⟩])]),
   (1, [("y", [⟨1, true, false, false, false⟩,
               ⟨2, false, false, false, false⟩])])]

/-- Final state of dispatching `"y"` on `intTwoLevel` with target `0` and
ancestor chain `[1]`. -/
def stTwoLevel : DispatchState :=
  ⟨⟨.NONE, 0, 1, false, false⟩, false, intTwoLevel,
    [⟨1, 1, .CAPTURING_PHASE, true, false⟩,
     ⟨0, 3, .AT_TARGET, true, false⟩,
     ⟨0, 4, .AT_TARGET, false, false⟩,
     ⟨1, 2, .BUBBLING_PHASE, false, false⟩]⟩

/-- Example callbacks: handle `1` stops propagation, everything else is a
no-op. -/
def cbsStop : Nat → CallbackAct := fun n => if n == 1 then .stop else .nop

/-- Example scenario: target `0` with ancestors `[1, 2]` (nearest first);
the root `2` carries the stopping capture listener `1`, the middle `1` a
capture listener `3`, the target a bubble listener `2`. -/
def intStop : Internal :=
  [(2, [("x", [⟨1, true, false, false, false⟩])]),
   (1, [("x", [⟨3, true, false, false, false⟩])]),
   (0, [("x", [⟨2, false, false, false, false⟩])])]

/-- State after the capturing step on the root ancestor `2` of `intStop`:
stopped, with only listener `1` fired. -/
def stStopMid : DispatchState :=
  ⟨⟨.CAPTURING_PHASE, 0, 2, false, true⟩, false, intStop,
    [⟨2, 1, .CAPTURING_PHASE, true, false⟩]⟩

/-- Example scenario: one object whose only listener for `"w"` is a `once`
bubble listener. -/
def intOnce : Internal := [(0, [("w", [⟨1, false, false, false, true⟩])])]

/-- Example operation sequence: register a second listener, remove it
again, then dispatch (which auto-removes the `once` listener and must
delete the emptied bucket). -/
def opsMixed : List Op :=
  [Op.listen 0 "w" 2 false false false,
   Op.unlisten 0 "w" 2 false,
   Op.dispatch (fun _ => CallbackAct.nop) [] 0 "w"]

/-- Example callbacks: handle `3` throws, everything else is a no-op. -/
def cbsThrow : Nat → CallbackAct := fun n => if n == 3 then .throwErr else .nop

/-- Example scenario: a single object whose `"z"` bucket holds a `once`
listener `1`, a plain listener `2` and the throwing listener `3`. -/
def intThrow : Internal :=
  [(0, [("z", [⟨1, false, false, false, true⟩,
               ⟨2, false, false, false, false⟩,
               ⟨3, false, false, false, false⟩])])]

/-- The error dispatching `"z"` on `intThrow` produces: thrown by listener
`3` in the at-target phase, with the `once` listener `1` already removed
from the bucket (and listener `2` skipped by the splice, see C3). -/
def errThrow : DispatchError × DispatchState :=
  (.callbackError,
   ⟨⟨.AT_TARGET, 0, 0, false, false⟩, false,
    [(0, [("z", [⟨2, false, false, false, false⟩,
                 ⟨3, false, false, false, false⟩])])],
    [⟨0, 1, .AT_TARGET, false, true⟩, ⟨0, 3, .AT_TARGET, false, false⟩]⟩)

/-! ### Association-list lemmas -/

theorem lookupS_setS (reg : Registry) (k : String) (v : Bucket) (k' : String) :
    lookupS (setS reg k v) k' = if k' = k then some v else lookupS reg k' := by
  induction reg with
  | nil =>
    by_cases h : k' = k
    · simp [setS, lookupS, h]
    · simp [setS, lookupS, h, Ne.symm h]
  | cons p rest ih =>
    obtain ⟨pk, pv⟩ := p
    by_cases hp : pk = k
    · subst hp
      by_cases h : k' = pk
      · simp [setS, lookupS, h]
      · simp [setS, lookupS, h, Ne.symm h]
    · by_cases h : pk = k'
      · subst h
        simp [setS, hp, lookupS]
      · simp [setS, hp, lookupS, h, ih]

theorem lookupN_setN (int : Internal) (o : Nat) (r : Registry) (o' : Nat) :
    lookupN (setN int o r) o' = if o' = o then some r else lookupN int o' := by
  induction int with
  | nil =>
    by_cases h : o' = o
    · simp [setN, lookupN, h]
    · simp [setN, lookupN, h, Ne.symm h]
  | cons p rest ih =>
    obtain ⟨pk, pv⟩ := p
    by_cases hp : pk = o
    · subst hp
      by_cases h : o' = pk
      · simp [setN, lookupN, h]
      · simp [setN, lookupN, h, Ne.symm h]
    · by_cases h : pk = o'
      · subst h
        simp [setN, hp, lookupN]
      · simp [setN, hp, lookupN, h, ih]

theorem lookupS_mem {reg : Registry} {k : String} {v : Bucket}
    (h : lookupS reg k = some v) : (k, v) ∈ reg := by
  induction reg with
  | nil => simp [lookupS] at h
  | cons p rest ih =>
    obtain ⟨pk, pv⟩ := p
    by_cases hp : pk = k
    · subst hp
      simp [lookupS] at h
      simp [h]
    · simp [lookupS, hp] at h
      exact List.mem_cons_of_mem _ (ih h)

theorem lookupN_mem {int : Internal} {o : Nat} {r : Registry}
    (h : lookupN int o = some r) : (o, r) ∈ int := by
  induction int with
  | nil => simp [lookupN] at h
  | cons p rest ih =>
    obtain ⟨pk, pv⟩ := p
    by_cases hp : pk = o
    · subst hp
      simp [lookupN] at h
      simp [h]
    · simp [lookupN, hp] at h
      exact List.mem_cons_of_mem _ (ih h)

theorem mem_setS {p : String × Bucket} {reg : Registry} {k : String}
    {v : Bucket} (h : p ∈ setS reg k v) : p = (k, v) ∨ p ∈ reg := by
  induction reg with
  | nil => simp [setS] at h; simp [h]
  | cons q rest ih =>
    obtain ⟨qk, qv⟩ := q
    by_cases hq : qk = k
    · subst hq
      simp [setS] at h
      rcases h with h | h
      · exact Or.inl h
      · exact Or.inr (List.mem_cons_of_mem _ h)
    · simp [setS, hq] at h
      rcases h with h | h
      · exact Or.inr (by simp [h])
      · rcases ih h with h' | h'
        · exact Or.inl h'
        · exact Or.inr (List.mem_cons_of_mem _ h')

theorem mem_deleteS {p : String × Bucket} {reg : Registry} {k : String}
    (h : p ∈ deleteS reg k) : p ∈ reg := by
  induction reg with
  | nil => simp [deleteS] at h
  | cons q rest ih =>
    obtain ⟨qk, qv⟩ := q
    by_cases hq : qk = k
    · subst hq
      simp [deleteS] at h
      exact List.mem_cons_of_mem _ h
    · simp [deleteS, hq] at h
      rcases h with h | h
      · simp [h]
      · exact List.mem_cons_of_mem _ (ih h)

theorem mem_setN {p : Nat × Registry} {int : Internal} {o : Nat}
    {r : Registry} (h : p ∈ setN int o r) : p = (o, r) ∨ p ∈ int := by
  induction int with
  | nil => simp [setN] at h; simp [h]
  | cons q rest ih =>
    obtain ⟨qk, qv⟩ := q
    by_cases hq : qk = o
    · subst hq
      simp [setN] at h
      rcases h with h | h
      · exact Or.inl h
      · exact Or.inr (List.mem_cons_of_mem _ h)
    · simp [setN, hq] at h
      rcases h with h | h
      · exact Or.inr (by simp [h])
      · rcases ih h with h' | h'
        · exact Or.inl h'
        · exact Or.inr (List.mem_cons_of_mem _ h')

/-! ### Frame lemmas for the small state transformers -/

@[simp] theorem alignPassive_handler (l : EventListener) (s : DispatchState) :
    (alignPassive l s).binder.handler = s.binder.handler := by
  unfold alignPassive; split <;> rfl

@[simp] theorem alignPassive_phase (l : EventListener) (s : DispatchState) :
    (alignPassive l s).binder.phase = s.binder.phase := by
  unfold alignPassive; split <;> rfl

@[simp] theorem alignPassive_target (l : EventListener) (s : DispatchState) :
    (alignPassive l s).binder.target = s.binder.target := by
  unfold alignPassive; split <;> rfl

@[simp] theorem alignPassive_stopped (l : EventListener) (s : DispatchState) :
    (alignPassive l s).binder.stopped = s.binder.stopped := by
  unfold alignPassive; split <;> rfl

@[simp] theorem alignPassive_prevented (l : EventListener) (s : DispatchState) :
    (alignPassive l s).prevented = s.prevented := by
  unfold alignPassive; split <;> rfl

@[simp] theorem alignPassive_internal (l : EventListener) (s : DispatchState) :
    (alignPassive l s).internal = s.internal := by
  unfold alignPassive; split <;> rfl

@[simp] theorem alignPassive_trace (l : EventListener) (s : DispatchState) :
    (alignPassive l s).trace = s.trace := by
  unfold alignPassive; split <;> rfl

@[simp] theorem alignPassive_passive (l : EventListener) (s : DispatchState) :
    (alignPassive l s).binder.passive = l.passive := by
  unfold alignPassive
  split
  · rfl
  · next h =>
    have := Bool.not_ne_self (s.binder.passive == l.passive)
    simp [bne] at h
    exact h

@[simp] theorem preventDefault_binder (s : DispatchState) :
    (preventDefault s).binder = s.binder := by
  unfold preventDefault; split <;> rfl

@[simp] theorem preventDefault_internal (s : DispatchState) :
    (preventDefault s).internal = s.internal := by
  unfold preventDefault; split <;> rfl

@[simp] theorem preventDefault_trace (s : DispatchState) :
    (preventDefault s).trace = s.trace := by
  unfold preventDefault; split <;> rfl

@[simp] theorem preventDefault_prevented (s : DispatchState) :
    (preventDefault s).prevented = (s.prevented || !s.binder.passive) := by
  unfold preventDefault
  split
  · next h => simp [h]
  · next h => simp at h; simp [h]

@[simp] theorem stopPropagation_handler (s : DispatchState) :
    (stopPropagation s).binder.handler = s.binder.handler := by
  unfold stopPropagation; split <;> rfl

@[simp] theorem stopPropagation_phase (s : DispatchState) :
    (stopPropagation s).binder.phase = s.binder.phase := by
  unfold stopPropagation; split <;> rfl

@[simp] theorem stopPropagation_target (s : DispatchState) :
    (stopPropagation s).binder.target = s.binder.target := by
  unfold stopPropagation; split <;> rfl

@[simp] theorem stopPropagation_passive (s : DispatchState) :
    (stopPropagation s).binder.passive = s.binder.passive := by
  unfold stopPropagation; split <;> rfl

@[simp] theorem stopPropagation_prevented (s : DispatchState) :
    (stopPropagation s).prevented = s.prevented := by
  unfold stopPropagation; split <;> rfl

@[simp] theorem stopPropagation_internal (s : DispatchState) :
    (stopPropagation s).internal = s.internal := by
  unfold stopPropagation; split <;> rfl

@[simp] theorem stopPropagation_trace (s : DispatchState) :
    (stopPropagation s).trace = s.trace := by
  unfold stopPropagation; split <;> rfl

@[simp] theorem stopPropagation_stopped (s : DispatchState) :
    (stopPropagation s).binder.stopped
      = (s.binder.stopped || !s.binder.passive) := by
  unfold stopPropagation
  split
  · next h => simp [h]
  · next h => simp at h; simp [h]

@[simp] theorem pushRec_binder (l : EventListener) (s : DispatchState) :
    (pushRec l s).binder = s.binder := rfl

@[simp] theorem pushRec_internal (l : EventListener) (s : DispatchState) :
    (pushRec l s).internal = s.internal := rfl

@[simp] theorem pushRec_prevented (l : EventListener) (s : DispatchState) :
    (pushRec l s).prevented = s.prevented := rfl

@[simp] theorem pushRec_trace (l : EventListener) (s : DispatchState) :
    (pushRec l s).trace = s.trace ++ [mkRec l s] := rfl

@[simp] theorem setPhaseHandler_phase (ph : EventPhase) (a : Nat)
    (s : DispatchState) : (setPhaseHandler ph a s).binder.phase = ph := rfl

@[simp] theorem setPhaseHandler_handler (ph : EventPhase) (a : Nat)
    (s : DispatchState) : (setPhaseHandler ph a s).binder.handler = a := rfl

@[simp] theorem setPhaseHandler_target (ph : EventPhase) (a : Nat)
    (s : DispatchState) :
    (setPhaseHandler ph a s).binder.target = s.binder.target := rfl

@[simp] theorem setPhaseHandler_passive (ph : EventPhase) (a : Nat)
    (s : DispatchState) :
    (setPhaseHandler ph a s).binder.passive = s.binder.passive := rfl

@[simp] theorem setPhaseHandler_stopped (ph : EventPhase) (a : Nat)
    (s : DispatchState) :
    (setPhaseHandler ph a s).binder.stopped = s.binder.stopped := rfl

@[simp] theorem setPhaseHandler_prevented (ph : EventPhase) (a : Nat)
    (s : DispatchState) :
    (setPhaseHandler ph a s).prevented = s.prevented := rfl

@[simp] theorem setPhaseHandler_internal (ph : EventPhase) (a : Nat)
    (s : DispatchState) :
    (setPhaseHandler ph a s).internal = s.internal := rfl

@[simp] theorem setPhaseHandler_trace (ph : EventPhase) (a : Nat)
    (s : DispatchState) :
    (setPhaseHandler ph a s).trace = s.trace := rfl

@[simp] theorem mkRec_alignPassive (l l' : EventListener)
    (s : DispatchState) : mkRec l (alignPassive l' s) = mkRec l s := by
  simp [mkRec]

/-- Everything `runCallback` preserves on the success path: the whole
binder except possibly the stopped latch, the registry store and the
trace; the stopped latch is monotone. -/
theorem runCallback_ok {act : CallbackAct} {s s' : DispatchState}
    (h : runCallback act s = .ok s') :
    s'.binder.handler = s.binder.handler ∧ s'.binder.phase = s.binder.phase ∧
    s'.binder.target = s.binder.target ∧
    s'.binder.passive = s.binder.passive ∧
    s'.internal = s.internal ∧ s'.trace = s.trace ∧
    (s.binder.stopped = true → s'.binder.stopped = true) := by
  cases act with
  | nop =>
    simp [runCallback] at h
    subst h
    exact ⟨rfl, rfl, rfl, rfl, rfl, rfl, fun hh => hh⟩
  | prevent =>
    simp [runCallback] at h
    subst h
    simp
  | stop =>
    simp [runCallback] at h
    subst h
    simp
    exact fun hh => Or.inl hh
  | preventStop =>
    simp [runCallback] at h
    subst h
    simp
    exact fun hh => Or.inl hh
  | throwErr => simp [runCallback] at h

/-- The only error a callback can produce is its own exception, thrown with
the state it was invoked in. -/
theorem runCallback_err {act : CallbackAct} {s : DispatchState}
    {e : DispatchError × DispatchState}
    (h : runCallback act s = .error e) :
    act = .throwErr ∧ e = (.callbackError, s) := by
  cases act <;> simp [runCallback] at h
  exact ⟨rfl, h.symm⟩

/-- A callback that is not `throwErr` always succeeds. -/
theorem runCallback_no_throw {act : CallbackAct} (s : DispatchState)
    (h : act ≠ .throwErr) : ∃ s', runCallback act s = .ok s' := by
  cases act <;> simp [runCallback]
  exact absurd rfl h

/-- A callback whose effect is only `nop` or `prevent` leaves the stopped
latch unchanged. -/
theorem runCallback_no_stop {act : CallbackAct} {s s' : DispatchState}
    (hact : act = .nop ∨ act = .prevent)
    (h : runCallback act s = .ok s') :
    s'.binder.stopped = s.binder.stopped := by
  rcases hact with h1 | h1 <;> subst h1 <;> simp [runCallback] at h <;>
    subst h <;> simp

/-! ### `listen` / `unlisten` characterizations -/

/-- The scan loop of `listen` is: update every matching entry in place, and
report whether any match was found. -/
theorem listenUpdate_eq (cb : Nat) (cap passive once : Bool) (bkt : Bucket) :
    listenUpdate cb cap passive once bkt =
      (bkt.map (updKey cb cap passive once), bkt.any (matchKey cb cap)) := by
  induction bkt with
  | nil => rfl
  | cons l rest ih =>
    have hcond : (!l.removed && l.callback == cb && l.capture == cap)
        = matchKey cb cap l := rfl
    cases h : matchKey cb cap l with
    | true =>
      simp only [listenUpdate, ih, hcond, h, if_true, List.map_cons,
        List.any_cons, updKey, Bool.true_or]
    | false =>
      simp only [listenUpdate, ih, hcond, h, Bool.false_eq_true, if_false,
        List.map_cons, List.any_cons, updKey, Bool.false_or]

theorem listenCore_none_iff (internal : Internal) (obj : Nat) (typ : String)
    (cb : Nat) (cap passive once : Bool) :
    listenCore internal obj typ cb cap passive once = none ↔
      lookupN internal obj = none := by
  cases h : lookupN internal obj <;> simp [listenCore, h]

theorem unlistenCore_none_iff (internal : Internal) (obj : Nat)
    (typ : String) (cb : Nat) (cap : Bool) :
    unlistenCore internal obj typ cb cap = none ↔
      lookupN internal obj = none := by
  cases h : lookupN internal obj
  · simp [unlistenCore, h]
  · next reg =>
    cases hb : lookupS reg typ <;> simp [unlistenCore, h, hb]

/-- A successful `unlisten` never removes an object's registry from the
store: every uid with a registry still has one afterwards. -/
theorem unlistenCore_keeps_keys {internal int' : Internal} {obj : Nat}
    {typ : String} {cb : Nat} {cap : Bool}
    (h : unlistenCore internal obj typ cb cap = some int') (o : Nat)
    (ho : (lookupN internal o).isSome = true) :
    (lookupN int' o).isSome = true := by
  cases hr : lookupN internal obj with
  | none => simp [unlistenCore, hr] at h
  | some reg =>
    cases hb : lookupS reg typ with
    | none =>
      simp [unlistenCore, hr, hb] at h
      subst h; exact ho
    | some bkt =>
      simp [unlistenCore, hr, hb] at h
      subst h
      rw [lookupN_setN]
      by_cases ho' : o = obj <;> simp [ho', ho]

/-! ### The no-empty-bucket invariant -/

theorem noEmptyB_iff (internal : Internal) :
    noEmptyB internal = true ↔
      ∀ p ∈ internal, ∀ q ∈ p.2, q.2 ≠ [] := by
  simp [noEmptyB, List.all_eq_true, List.isEmpty_iff]

/-- `listen` preserves the invariant: the bucket it writes back is never
empty (an in-place update keeps a non-empty bucket non-empty; otherwise a
fresh entry is appended). -/
theorem listenCore_noEmpty {internal int' : Internal} {obj : Nat}
    {typ : String} {cb : Nat} {cap passive once : Bool}
    (hinv : noEmptyB internal = true)
    (h : listenCore internal obj typ cb cap passive once = some int') :
    noEmptyB int' = true := by
  cases hr : lookupN internal obj with
  | none => simp [listenCore, hr] at h
  | some reg =>
    simp only [listenCore, hr, listenUpdate_eq, Option.some.injEq] at h
    rw [noEmptyB_iff] at hinv ⊢
    have hreg : ∀ q ∈ reg, q.2 ≠ [] := hinv (obj, reg) (lookupN_mem hr)
    intro p hp q hq
    subst h
    rcases mem_setN hp with hp1 | hp1
    · subst hp1
      rcases mem_setS hq with hq1 | hq1
      · rw [hq1]
        dsimp only
        by_cases hany :
            ((lookupS reg typ).getD []).any (matchKey cb cap) = true
        · rw [if_pos hany]
          intro hc
          rw [List.map_eq_nil_iff] at hc
          rw [hc] at hany
          simp at hany
        · rw [if_neg hany]
          simp
      · exact hreg q hq1
    · exact hinv p hp1 q hq

/-- `unlisten` preserves the invariant: a bucket emptied by the splice is
deleted from the registry rather than left in place. -/
theorem unlistenCore_noEmpty {internal int' : Internal} {obj : Nat}
    {typ : String} {cb : Nat} {cap : Bool}
    (hinv : noEmptyB internal = true)
    (h : unlistenCore internal obj typ cb cap = some int') :
    noEmptyB int' = true := by
  cases hr : lookupN internal obj with
  | none => simp [unlistenCore, hr] at h
  | some reg =>
    cases hb : lookupS reg typ with
    | none =>
      simp [unlistenCore, hr, hb] at h
      subst h; exact hinv
    | some bkt =>
      simp [unlistenCore, hr, hb] at h
      rw [noEmptyB_iff] at hinv ⊢
      have hreg : ∀ q ∈ reg, q.2 ≠ [] := hinv (obj, reg) (lookupN_mem hr)
      intro p hp q hq
      subst h
      rcases mem_setN hp with hp1 | hp1
      · subst hp1
        dsimp only at hq
        split at hq
        · exact hreg q (mem_deleteS hq)
        · next hne =>
          rcases mem_setS hq with hq1 | hq1
          · rw [hq1]
            exact fun hc => hne hc
          · exact hreg q hq1
      · exact hinv p hp1 q hq

/-! ### Lemmas about one fired iteration -/

theorem fireStep_ok {cbs : Nat → CallbackAct} {cap : Bool} {typ : String}
    {l : EventListener} {s s' : DispatchState}
    (h : fireStep cbs cap typ l s = .ok s') :
    s'.binder.handler = s.binder.handler ∧
    s'.binder.phase = s.binder.phase ∧
    s'.binder.target = s.binder.target ∧
    s'.trace = s.trace ++ [mkRec l s] ∧
    (s.binder.stopped = true → s'.binder.stopped = true) := by
  unfold fireStep at h
  cases hrc : runCallback (cbs l.callback) (pushRec l (alignPassive l s)) with
  | error e => rw [hrc] at h; cases h
  | ok s3 =>
    rw [hrc] at h
    dsimp only at h
    obtain ⟨h1, h2, h3, h4, h5, h6, h7⟩ := runCallback_ok hrc
    cases ho : (if l.once then
        unlistenCore s3.internal s3.binder.handler typ l.callback cap
      else some s3.internal) with
    | none => rw [ho] at h; cases h
    | some int2 =>
      rw [ho] at h
      injection h with h
      subst h
      refine ⟨by simp [h1], by simp [h2], by simp [h3], by simp [h6],
        fun hs => ?_⟩
      show s3.binder.stopped = true
      exact h7 (by simp [hs])

theorem fireStep_err {cbs : Nat → CallbackAct} {cap : Bool} {typ : String}
    {l : EventListener} {s : DispatchState}
    {e : DispatchError × DispatchState}
    (h : fireStep cbs cap typ l s = .error e) :
    e.2.binder.handler = s.binder.handler ∧
    e.2.binder.phase = s.binder.phase ∧
    e.2.internal = s.internal ∧
    e.2.trace = s.trace ++ [mkRec l s] ∧
    (e.1 = .callbackError → cbs l.callback = .throwErr) := by
  unfold fireStep at h
  cases hrc : runCallback (cbs l.callback) (pushRec l (alignPassive l s)) with
  | error e' =>
    rw [hrc] at h
    dsimp only at h
    injection h with h
    subst h
    obtain ⟨ha, hb⟩ := runCallback_err hrc
    subst hb
    exact ⟨by simp, by simp, by simp, by simp, fun _ => ha⟩
  | ok s3 =>
    rw [hrc] at h
    dsimp only at h
    obtain ⟨h1, h2, h3, h4, h5, h6, h7⟩ := runCallback_ok hrc
    cases ho : (if l.once then
        unlistenCore s3.internal s3.binder.handler typ l.callback cap
      else some s3.internal) with
    | none =>
      rw [ho] at h
      injection h with h
      subst h
      refine ⟨by simp [h1], by simp [h2], by simp [h5], by simp [h6],
        fun hc => ?_⟩
      cases hc
    | some int2 => rw [ho] at h; cases h

theorem fireStep_no_error {cbs : Nat → CallbackAct} {cap : Bool}
    {typ : String} {l : EventListener} {s : DispatchState}
    (hlook : (lookupN s.internal s.binder.handler).isSome = true)
    (hcb : cbs l.callback ≠ .throwErr) :
    ∃ s', fireStep cbs cap typ l s = .ok s' ∧
      (lookupN s'.internal s'.binder.handler).isSome = true := by
  obtain ⟨s3, hrc⟩ :=
    runCallback_no_throw (pushRec l (alignPassive l s)) hcb
  obtain ⟨h1, h2, h3, h4, h5, h6, h7⟩ := runCallback_ok hrc
  have hl3 : (lookupN s3.internal s3.binder.handler).isSome = true := by
    rw [h1, h5]; simpa using hlook
  unfold fireStep
  rw [hrc]
  cases honce : l.once with
  | false =>
    refine ⟨{ s3 with internal := s3.internal }, by simp, ?_⟩
    simpa using hl3
  | true =>
    cases hu : unlistenCore s3.internal s3.binder.handler typ l.callback cap
      with
    | none =>
      rw [unlistenCore_none_iff] at hu
      rw [hu] at hl3
      cases hl3
    | some int2 =>
      refine ⟨{ s3 with internal := int2 }, by simp [hu], ?_⟩
      show (lookupN int2 s3.binder.handler).isSome = true
      exact unlistenCore_keeps_keys hu _ hl3

theorem fireStep_internal {cbs : Nat → CallbackAct} {cap : Bool}
    {typ : String} {l : EventListener} {s s' : DispatchState}
    (h : fireStep cbs cap typ l s = .ok s') (honce : l.once = false) :
    s'.internal = s.internal := by
  unfold fireStep at h
  cases hrc : runCallback (cbs l.callback) (pushRec l (alignPassive l s)) with
  | error e => rw [hrc] at h; cases h
  | ok s3 =>
    rw [hrc] at h
    dsimp only at h
    rw [honce] at h
    simp only [Bool.false_eq_true, if_false] at h
    injection h with h
    subst h
    obtain ⟨_, _, _, _, h5, _, _⟩ := runCallback_ok hrc
    simpa using h5

theorem fireStep_noEmpty {cbs : Nat → CallbackAct} {cap : Bool}
    {typ : String} {l : EventListener} {s s' : DispatchState}
    (hinv : noEmptyB s.internal = true)
    (h : fireStep cbs cap typ l s = .ok s') :
    noEmptyB s'.internal = true := by
  unfold fireStep at h
  cases hrc : runCallback (cbs l.callback) (pushRec l (alignPassive l s)) with
  | error e => rw [hrc] at h; cases h
  | ok s3 =>
    rw [hrc] at h
    dsimp only at h
    obtain ⟨_, _, _, _, h5, _, _⟩ := runCallback_ok hrc
    have hinv3 : noEmptyB s3.internal = true := by
      rw [h5]; simpa using hinv
    cases ho : (if l.once then
        unlistenCore s3.internal s3.binder.handler typ l.callback cap
      else some s3.internal) with
    | none => rw [ho] at h; cases h
    | some int2 =>
      rw [ho] at h
      injection h with h
      subst h
      show noEmptyB int2 = true
      cases honce : l.once with
      | false =>
        rw [honce] at ho
        simp only [Bool.false_eq_true, if_false, Option.some.injEq] at ho
        rw [← ho]
        exact hinv3
      | true =>
        rw [honce] at ho
        simp only [if_true] at ho
        exact unlistenCore_noEmpty hinv3 ho

theorem fireStep_no_stop {cbs : Nat → CallbackAct} {cap : Bool}
    {typ : String} {l : EventListener} {s s' : DispatchState}
    (hact : cbs l.callback = .nop ∨ cbs l.callback = .prevent)
    (h : fireStep cbs cap typ l s = .ok s') :
    s'.binder.stopped = s.binder.stopped := by
  unfold fireStep at h
  cases hrc : runCallback (cbs l.callback) (pushRec l (alignPassive l s)) with
  | error e => rw [hrc] at h; cases h
  | ok s3 =>
    rw [hrc] at h
    dsimp only at h
    have hst := runCallback_no_stop hact hrc
    cases ho : (if l.once then
        unlistenCore s3.internal s3.binder.handler typ l.callback cap
      else some s3.internal) with
    | none => rw [ho] at h; cases h
    | some int2 =>
      rw [ho] at h
      injection h with h
      subst h
      show s3.binder.stopped = s.binder.stopped
      rw [hst]
      simp

/-! ### Lemmas about the `fireListeners` loop -/

/-- Once the stopped latch is set, the loop fires nothing and changes
nothing: every remaining entry fails the `!binder.stopped` filter. -/
theorem fireLoop_stopped (cbs : Nat → CallbackAct) (cap : Bool)
    (typ : String) :
    ∀ (fuel i : Nat) (s : DispatchState), s.binder.stopped = true →
      fireLoop cbs cap typ fuel i s = .ok s
  | 0, _, s, _ => rfl
  | fuel + 1, i, s, hs => by
    unfold fireLoop
    cases hb : (currentBucket typ s)[i]? with
    | none => rfl
    | some l =>
      have hcond : (l.capture == cap && !l.removed && !s.binder.stopped)
          = false := by simp [hs]
      dsimp only
      rw [hcond]
      simp only [Bool.false_eq_true, if_false]
      exact fireLoop_stopped cbs cap typ fuel (i + 1) s hs

/-- One-step unfolding of the loop. -/
theorem fireLoop_succ (cbs : Nat → CallbackAct) (cap : Bool) (typ : String)
    (fuel i : Nat) (s : DispatchState) :
    fireLoop cbs cap typ (fuel + 1) i s =
      match (currentBucket typ s)[i]? with
      | none => .ok s
      | some l =>
        if (l.capture == cap && !l.removed && !s.binder.stopped) = true then
          match fireStep cbs cap typ l s with
          | .error e => .error e
          | .ok s2 => fireLoop cbs cap typ fuel (i + 1) s2
        else fireLoop cbs cap typ fuel (i + 1) s := rfl

/-- What the loop preserves on success: handler, phase and target of the
binder; the stopped latch is monotone; and the trace only grows, by records
that all carry the loop's handler, phase and capture flag. -/
theorem fireLoop_frame (cbs : Nat → CallbackAct) (cap : Bool)
    (typ : String) :
    ∀ (fuel i : Nat) (s s' : DispatchState),
      fireLoop cbs cap typ fuel i s = .ok s' →
      s'.binder.handler = s.binder.handler ∧
      s'.binder.phase = s.binder.phase ∧
      s'.binder.target = s.binder.target ∧
      (s.binder.stopped = true → s'.binder.stopped = true) ∧
      ∃ t, s'.trace = s.trace ++ t ∧
        ∀ r ∈ t, r.handler = s.binder.handler ∧
          r.phase = s.binder.phase ∧ r.capture = cap
  | 0, _, s, s', h => by
    cases h
    exact ⟨rfl, rfl, rfl, fun hh => hh, [], by simp, by simp⟩
  | fuel + 1, i, s, s', h => by
    cases hb : (currentBucket typ s)[i]? with
    | none =>
      rw [fireLoop_succ, hb] at h
      dsimp only at h
      cases h
      exact ⟨rfl, rfl, rfl, fun hh => hh, [], by simp, by simp⟩
    | some l =>
      rw [fireLoop_succ, hb] at h
      dsimp only at h
      by_cases hcond :
          (l.capture == cap && !l.removed && !s.binder.stopped) = true
      · rw [if_pos hcond] at h
        revert h
        cases hstep : fireStep cbs cap typ l s with
        | error e =>
          intro h
          cases h
        | ok s2 =>
          intro h
          obtain ⟨g1, g2, g3, g4, g5⟩ := fireStep_ok hstep
          obtain ⟨i1, i2, i3, i4, t', ht', hrec⟩ :=
            fireLoop_frame cbs cap typ fuel (i + 1) s2 s' h
          have hlcap : l.capture = cap := by
            simp only [Bool.and_eq_true, beq_iff_eq] at hcond
            exact hcond.1.1
          refine ⟨by rw [i1, g1], by rw [i2, g2], by rw [i3, g3],
            fun hs => i4 (g5 hs), mkRec l s :: t', ?_, ?_⟩
          · rw [ht', g4]
            simp
          · intro r hr
            rcases List.mem_cons.mp hr with hr1 | hr1
            · subst hr1
              exact ⟨rfl, rfl, hlcap⟩
            · have := hrec r hr1
              rw [g1, g2] at this
              exact this
      · rw [if_neg hcond] at h
        exact fireLoop_frame cbs cap typ fuel (i + 1) s s' h

/-- If every callback is `nop` or `prevent`, the loop never sets the
stopped latch. -/
theorem fireLoop_no_stop {cbs : Nat → CallbackAct} (cap : Bool)
    (typ : String) (hcbs : ∀ n, cbs n = .nop ∨ cbs n = .prevent) :
    ∀ (fuel i : Nat) (s s' : DispatchState),
      fireLoop cbs cap typ fuel i s = .ok s' →
      s'.binder.stopped = s.binder.stopped
  | 0, _, s, s', h => by cases h; rfl
  | fuel + 1, i, s, s', h => by
    cases hb : (currentBucket typ s)[i]? with
    | none =>
      rw [fireLoop_succ, hb] at h
      cases h
      rfl
    | some l =>
      rw [fireLoop_succ, hb] at h
      dsimp only at h
      by_cases hcond :
          (l.capture == cap && !l.removed && !s.binder.stopped) = true
      · rw [if_pos hcond] at h
        revert h
        cases hstep : fireStep cbs cap typ l s with
        | error e => intro h; cases h
        | ok s2 =>
          intro h
          have h1 := fireStep_no_stop (hcbs l.callback) hstep
          have h2 := fireLoop_no_stop cap typ hcbs fuel (i + 1) s2 s' h
          rw [h2, h1]
      · rw [if_neg hcond] at h
        exact fireLoop_no_stop cap typ hcbs fuel (i + 1) s s' h

/-- If every record the loop appended to the trace has `once = false`, the
registry store is untouched (the only mutation path is `once` removal). -/
theorem fireLoop_internal_once (cbs : Nat → CallbackAct) (cap : Bool)
    (typ : String) :
    ∀ (fuel i : Nat) (s s' : DispatchState) (t : List FireRec),
      fireLoop cbs cap typ fuel i s = .ok s' →
      s'.trace = s.trace ++ t → (∀ r ∈ t, r.once = false) →
      s'.internal = s.internal
  | 0, _, s, s', t, h, _, _ => by cases h; rfl
  | fuel + 1, i, s, s', t, h, htr, honce => by
    cases hb : (currentBucket typ s)[i]? with
    | none =>
      rw [fireLoop_succ, hb] at h
      cases h
      rfl
    | some l =>
      rw [fireLoop_succ, hb] at h
      dsimp only at h
      by_cases hcond :
          (l.capture == cap && !l.removed && !s.binder.stopped) = true
      · rw [if_pos hcond] at h
        revert h
        cases hstep : fireStep cbs cap typ l s with
        | error e => intro h; cases h
        | ok s2 =>
          intro h
          obtain ⟨_, _, _, g4, _⟩ := fireStep_ok hstep
          obtain ⟨_, _, _, _, t', ht', _⟩ :=
            fireLoop_frame cbs cap typ fuel (i + 1) s2 s' h
          have hsplit : s.trace ++ t = s.trace ++ (mkRec l s :: t') := by
            rw [← htr, ht', g4]
            simp
          have ht : t = mkRec l s :: t' :=
            List.append_cancel_left hsplit
          have hlonce : l.once = false := by
            have := honce (mkRec l s) (by rw [ht]; exact List.mem_cons_self _ _)
            exact this
          have hint2 : s2.internal = s.internal :=
            fireStep_internal hstep hlonce
          have hint1 : s'.internal = s2.internal := by
            refine fireLoop_internal_once cbs cap typ fuel (i + 1) s2 s' t'
              h ?_ ?_
            · rw [ht', g4]
            · intro r hr
              exact honce r (by rw [ht]; exact List.mem_cons_of_mem _ hr)
          rw [hint1, hint2]
      · rw [if_neg hcond] at h
        exact fireLoop_internal_once cbs cap typ fuel (i + 1) s s' t h htr
          honce

/-- The loop preserves the no-empty-bucket invariant, whether it returns or
throws. -/
theorem fireLoop_noEmpty (cbs : Nat → CallbackAct) (cap : Bool)
    (typ : String) :
    ∀ (fuel i : Nat) (s : DispatchState),
      noEmptyB s.internal = true →
      noEmptyB (resultState (fireLoop cbs cap typ fuel i s)).internal = true
  | 0, _, s, hinv => hinv
  | fuel + 1, i, s, hinv => by
    rw [fireLoop_succ]
    cases hb : (currentBucket typ s)[i]? with
    | none => exact hinv
    | some l =>
      dsimp only
      by_cases hcond :
          (l.capture == cap && !l.removed && !s.binder.stopped) = true
      · rw [if_pos hcond]
        cases hstep : fireStep cbs cap typ l s with
        | error e =>
          obtain ⟨_, _, h3, _, _⟩ := fireStep_err hstep
          dsimp only [resultState]
          rw [h3]
          exact hinv
        | ok s2 =>
          have hinv2 := fireStep_noEmpty hinv hstep
          exact fireLoop_noEmpty cbs cap typ fuel (i + 1) s2 hinv2
      · rw [if_neg hcond]
        exact fireLoop_noEmpty cbs cap typ fuel (i + 1) s hinv

/-- With no throwing callback and the handler's registry present, the loop
always succeeds, and the handler's registry is still present afterwards. -/
theorem fireLoop_no_error {cbs : Nat → CallbackAct} (cap : Bool)
    (typ : String) (hcb : ∀ n, cbs n ≠ .throwErr) :
    ∀ (fuel i : Nat) (s : DispatchState),
      (lookupN s.internal s.binder.handler).isSome = true →
      ∃ s', fireLoop cbs cap typ fuel i s = .ok s' ∧
        (lookupN s'.internal s'.binder.handler).isSome = true
  | 0, _, s, hlook => ⟨s, rfl, hlook⟩
  | fuel + 1, i, s, hlook => by
    cases hb : (currentBucket typ s)[i]? with
    | none =>
      refine ⟨s, ?_, hlook⟩
      rw [fireLoop_succ, hb]
    | some l =>
      by_cases hcond :
          (l.capture == cap && !l.removed && !s.binder.stopped) = true
      · obtain ⟨s2, hstep, hl2⟩ :=
          @fireStep_no_error cbs cap typ l s hlook (hcb l.callback)
        obtain ⟨s', hrec, hl'⟩ :=
          fireLoop_no_error cap typ hcb fuel (i + 1) s2 hl2
        refine ⟨s', ?_, hl'⟩
        rw [fireLoop_succ, hb]
        dsimp only
        rw [if_pos hcond, hstep]
        exact hrec
      · obtain ⟨s', hrec, hl'⟩ :=
          fireLoop_no_error cap typ hcb fuel (i + 1) s hlook
        refine ⟨s', ?_, hl'⟩
        rw [fireLoop_succ, hb]
        dsimp only
        rw [if_neg hcond]
        exact hrec

/-- When the loop throws: the carried state has the phase the loop was
entered with, and if the error is a callback exception, the trace ends with
the record of the throwing listener. -/
theorem fireLoop_err (cbs : Nat → CallbackAct) (cap : Bool) (typ : String) :
    ∀ (fuel i : Nat) (s : DispatchState) (e : DispatchError × DispatchState),
      fireLoop cbs cap typ fuel i s = .error e →
      e.2.binder.phase = s.binder.phase ∧
      (e.1 = .callbackError →
        ∃ pre r, e.2.trace = pre ++ [r] ∧ cbs r.callback = .throwErr)
  | 0, _, s, e, h => by cases h
  | fuel + 1, i, s, e, h => by
    cases hb : (currentBucket typ s)[i]? with
    | none =>
      rw [fireLoop_succ, hb] at h
      cases h
    | some l =>
      rw [fireLoop_succ, hb] at h
      dsimp only at h
      by_cases hcond :
          (l.capture == cap && !l.removed && !s.binder.stopped) = true
      · rw [if_pos hcond] at h
        revert h
        cases hstep : fireStep cbs cap typ l s with
        | error e' =>
          intro h
          cases h
          obtain ⟨_, h2, _, h4, h5⟩ := fireStep_err hstep
          refine ⟨h2, fun hk => ?_⟩
          exact ⟨s.trace, mkRec l s, h4, h5 hk⟩
        | ok s2 =>
          intro h
          obtain ⟨_, g2, _, _, _⟩ := fireStep_ok hstep
          obtain ⟨i1, i2⟩ := fireLoop_err cbs cap typ fuel (i + 1) s2 e h
          exact ⟨by rw [i1, g2], i2⟩
      · rw [if_neg hcond] at h
        exact fireLoop_err cbs cap typ fuel (i + 1) s e h

/-! ### Lemmas about `fireListeners` -/

theorem fireListeners_stopped {cbs : Nat → CallbackAct} {cap : Bool}
    {typ : String} {s : DispatchState} (hs : s.binder.stopped = true)
    (hlook : (lookupN s.internal s.binder.handler).isSome = true) :
    fireListeners cbs cap typ s = .ok s := by
  cases hr : lookupN s.internal s.binder.handler with
  | none => rw [hr] at hlook; cases hlook
  | some reg =>
    cases hbk : lookupS reg typ with
    | none =>
      unfold fireListeners
      rw [hr]
      dsimp only
      rw [hbk]
    | some bkt =>
      unfold fireListeners
      rw [hr]
      dsimp only
      rw [hbk]
      exact fireLoop_stopped cbs cap typ bkt.length 0 s hs

theorem fireListeners_frame {cbs : Nat → CallbackAct} {cap : Bool}
    {typ : String} {s s' : DispatchState}
    (h : fireListeners cbs cap typ s = .ok s') :
    s'.binder.handler = s.binder.handler ∧
    s'.binder.phase = s.binder.phase ∧
    s'.binder.target = s.binder.target ∧
    (s.binder.stopped = true → s'.binder.stopped = true) ∧
    ∃ t, s'.trace = s.trace ++ t ∧
      ∀ r ∈ t, r.handler = s.binder.handler ∧
        r.phase = s.binder.phase ∧ r.capture = cap := by
  cases hr : lookupN s.internal s.binder.handler with
  | none =>
    unfold fireListeners at h
    rw [hr] at h
    cases h
  | some reg =>
    cases hbk : lookupS reg typ with
    | none =>
      unfold fireListeners at h
      rw [hr] at h
      dsimp only at h
      rw [hbk] at h
      cases h
      exact ⟨rfl, rfl, rfl, fun hh => hh, [], by simp, by simp⟩
    | some bkt =>
      unfold fireListeners at h
      rw [hr] at h
      dsimp only at h
      rw [hbk] at h
      exact fireLoop_frame cbs cap typ bkt.length 0 s s' h

theorem fireListeners_no_stop {cbs : Nat → CallbackAct} {cap : Bool}
    {typ : String} {s s' : DispatchState}
    (hcbs : ∀ n, cbs n = .nop ∨ cbs n = .prevent)
    (h : fireListeners cbs cap typ s = .ok s') :
    s'.binder.stopped = s.binder.stopped := by
  cases hr : lookupN s.internal s.binder.handler with
  | none =>
    unfold fireListeners at h
    rw [hr] at h
    cases h
  | some reg =>
    cases hbk : lookupS reg typ with
    | none =>
      unfold fireListeners at h
      rw [hr] at h
      dsimp only at h
      rw [hbk] at h
      cases h
      rfl
    | some bkt =>
      unfold fireListeners at h
      rw [hr] at h
      dsimp only at h
      rw [hbk] at h
      exact fireLoop_no_stop cap typ hcbs bkt.length 0 s s' h

theorem fireListeners_internal_once {cbs : Nat → CallbackAct} {cap : Bool}
    {typ : String} {s s' : DispatchState} {t : List FireRec}
    (h : fireListeners cbs cap typ s = .ok s')
    (htr : s'.trace = s.trace ++ t) (honce : ∀ r ∈ t, r.once = false) :
    s'.internal = s.internal := by
  cases hr : lookupN s.internal s.binder.handler with
  | none =>
    unfold fireListeners at h
    rw [hr] at h
    cases h
  | some reg =>
    cases hbk : lookupS reg typ with
    | none =>
      unfold fireListeners at h
      rw [hr] at h
      dsimp only at h
      rw [hbk] at h
      cases h
      rfl
    | some bkt =>
      unfold fireListeners at h
      rw [hr] at h
      dsimp only at h
      rw [hbk] at h
      exact fireLoop_internal_once cbs cap typ bkt.length 0 s s' t h htr
        honce

theorem fireListeners_noEmpty {cbs : Nat → CallbackAct} {cap : Bool}
    {typ : String} {s : DispatchState} (hinv : noEmptyB s.internal = true) :
    noEmptyB (resultState (fireListeners cbs cap typ s)).internal = true := by
  cases hr : lookupN s.internal s.binder.handler with
  | none =>
    unfold fireListeners
    rw [hr]
    exact hinv
  | some reg =>
    cases hbk : lookupS reg typ with
    | none =>
      unfold fireListeners
      rw [hr]
      dsimp only
      rw [hbk]
      exact hinv
    | some bkt =>
      unfold fireListeners
      rw [hr]
      dsimp only
      rw [hbk]
      exact fireLoop_noEmpty cbs cap typ bkt.length 0 s hinv

theorem fireListeners_no_error {cbs : Nat → CallbackAct} {cap : Bool}
    {typ : String} {s : DispatchState}
    (hcb : ∀ n, cbs n ≠ .throwErr)
    (hlook : (lookupN s.internal s.binder.handler).isSome = true) :
    ∃ s', fireListeners cbs cap typ s = .ok s' ∧
      (lookupN s'.internal s'.binder.handler).isSome = true := by
  cases hr : lookupN s.internal s.binder.handler with
  | none => rw [hr] at hlook; cases hlook
  | some reg =>
    cases hbk : lookupS reg typ with
    | none =>
      refine ⟨s, ?_, hlook⟩
      unfold fireListeners
      rw [hr]
      dsimp only
      rw [hbk]
    | some bkt =>
      obtain ⟨s', hrec, hl'⟩ :=
        fireLoop_no_error cap typ hcb bkt.length 0 s hlook
      refine ⟨s', ?_, hl'⟩
      unfold fireListeners
      rw [hr]
      dsimp only
      rw [hbk]
      exact hrec

theorem fireListeners_err {cbs : Nat → CallbackAct} {cap : Bool}
    {typ : String} {s : DispatchState} {e : DispatchError × DispatchState}
    (h : fireListeners cbs cap typ s = .error e) :
    e.2.binder.phase = s.binder.phase ∧
    (e.1 = .callbackError →
      ∃ pre r, e.2.trace = pre ++ [r] ∧ cbs r.callback = .throwErr) := by
  cases hr : lookupN s.internal s.binder.handler with
  | none =>
    unfold fireListeners at h
    rw [hr] at h
    injection h with h
    rw [← h]
    exact ⟨rfl, fun hk => by simp at hk⟩
  | some reg =>
    cases hbk : lookupS reg typ with
    | none =>
      unfold fireListeners at h
      rw [hr] at h
      dsimp only at h
      rw [hbk] at h
      cases h
    | some bkt =>
      unfold fireListeners at h
      rw [hr] at h
      dsimp only at h
      rw [hbk] at h
      exact fireLoop_err cbs cap typ bkt.length 0 s e h

/-- A present registry with no bucket for the type is a silent no-op. -/
theorem fireListeners_silent {cbs : Nat → CallbackAct} {cap : Bool}
    {typ : String} {s : DispatchState} {reg : Registry}
    (hr : lookupN s.internal s.binder.handler = some reg)
    (hbk : lookupS reg typ = none) :
    fireListeners cbs cap typ s = .ok s := by
  unfold fireListeners
  rw [hr]
  dsimp only
  rw [hbk]

/-- A fired step never deletes an object's registry from the store. -/
theorem fireStep_keeps_keys {cbs : Nat → CallbackAct} {cap : Bool}
    {typ : String} {l : EventListener} {s s' : DispatchState}
    (h : fireStep cbs cap typ l s = .ok s') (o : Nat)
    (ho : (lookupN s.internal o).isSome = true) :
    (lookupN s'.internal o).isSome = true := by
  unfold fireStep at h
  cases hrc : runCallback (cbs l.callback) (pushRec l (alignPassive l s)) with
  | error e => rw [hrc] at h; cases h
  | ok s3 =>
    rw [hrc] at h
    dsimp only at h
    obtain ⟨_, _, _, _, h5, _, _⟩ := runCallback_ok hrc
    have ho3 : (lookupN s3.internal o).isSome = true := by
      rw [h5]; simpa using ho
    cases hu : (if l.once then
        unlistenCore s3.internal s3.binder.handler typ l.callback cap
      else some s3.internal) with
    | none => rw [hu] at h; cases h
    | some int2 =>
      rw [hu] at h
      injection h with h
      subst h
      show (lookupN int2 o).isSome = true
      cases honce : l.once with
      | false =>
        rw [honce] at hu
        simp only [Bool.false_eq_true, if_false, Option.some.injEq] at hu
        rw [← hu]
        exact ho3
      | true =>
        rw [honce] at hu
        simp only [if_true] at hu
        exact unlistenCore_keeps_keys hu o ho3

theorem fireLoop_keeps_keys (cbs : Nat → CallbackAct) (cap : Bool)
    (typ : String) :
    ∀ (fuel i : Nat) (s s' : DispatchState),
      fireLoop cbs cap typ fuel i s = .ok s' → ∀ o,
      (lookupN s.internal o).isSome = true →
      (lookupN s'.internal o).isSome = true
  | 0, _, s, s', h => by cases h; exact fun _ ho => ho
  | fuel + 1, i, s, s', h => by
    cases hb : (currentBucket typ s)[i]? with
    | none =>
      rw [fireLoop_succ, hb] at h
      cases h
      exact fun _ ho => ho
    | some l =>
      rw [fireLoop_succ, hb] at h
      dsimp only at h
      by_cases hcond :
          (l.capture == cap && !l.removed && !s.binder.stopped) = true
      · rw [if_pos hcond] at h
        revert h
        cases hstep : fireStep cbs cap typ l s with
        | error e => intro h; cases h
        | ok s2 =>
          intro h o ho
          exact fireLoop_keeps_keys cbs cap typ fuel (i + 1) s2 s' h o
            (fireStep_keeps_keys hstep o ho)
      · rw [if_neg hcond] at h
        exact fireLoop_keeps_keys cbs cap typ fuel (i + 1) s s' h

theorem fireListeners_keeps_keys {cbs : Nat → CallbackAct} {cap : Bool}
    {typ : String} {s s' : DispatchState}
    (h : fireListeners cbs cap typ s = .ok s') (o : Nat)
    (ho : (lookupN s.internal o).isSome = true) :
    (lookupN s'.internal o).isSome = true := by
  cases hr : lookupN s.internal s.binder.handler with
  | none =>
    unfold fireListeners at h
    rw [hr] at h
    cases h
  | some reg =>
    cases hbk : lookupS reg typ with
    | none =>
      unfold fireListeners at h
      rw [hr] at h
      dsimp only at h
      rw [hbk] at h
      cases h
      exact ho
    | some bkt =>
      unfold fireListeners at h
      rw [hr] at h
      dsimp only at h
      rw [hbk] at h
      exact fireLoop_keeps_keys cbs cap typ bkt.length 0 s s' h o ho

/-! ### Lemmas about the capturing cycle -/

/-- One-step unfolding of the capturing cycle. -/
theorem runCapture_cons (cbs : Nat → CallbackAct) (typ : String) (a : Nat)
    (rest : List Nat) (s : DispatchState) :
    runCapture cbs typ (a :: rest) s =
      match fireListeners cbs true typ
          (setPhaseHandler .CAPTURING_PHASE a s) with
      | .error e => .error e
      | .ok s2 => runCapture cbs typ rest s2 := rfl

/-- Success decomposition of the capturing cycle: one trace segment per
visited ancestor, in visit order, each containing only capture-phase
records of that ancestor's capture-registered listeners. -/
theorem runCapture_frame (cbs : Nat → CallbackAct) (typ : String) :
    ∀ (chain : List Nat) (s s' : DispatchState),
      runCapture cbs typ chain s = .ok s' →
      s'.binder.target = s.binder.target ∧
      (s.binder.stopped = true → s'.binder.stopped = true) ∧
      ∃ ts, s'.trace = s.trace ++ ts.flatten ∧
        List.Forall₂ (fun a t => phaseRecs a .CAPTURING_PHASE true t)
          chain ts
  | [], s, s', h => by
    cases h
    exact ⟨rfl, fun hh => hh, [], by simp, List.Forall₂.nil⟩
  | a :: rest, s, s', h => by
    unfold runCapture at h
    revert h
    cases hf : fireListeners cbs true typ
        (setPhaseHandler .CAPTURING_PHASE a s) with
    | error e => intro h; cases h
    | ok s2 =>
      intro h
      obtain ⟨f1, f2, f3, f4, t, ht, hrec⟩ := fireListeners_frame hf
      obtain ⟨i1, i2, ts', hts', hfa⟩ :=
        runCapture_frame cbs typ rest s2 s' h
      refine ⟨by rw [i1, f3]; simp, fun hs => i2 (f4 (by simp [hs])),
        t :: ts', ?_, ?_⟩
      · rw [hts', ht]
        simp
      · refine List.Forall₂.cons ?_ hfa
        intro r hr
        have := hrec r hr
        simpa using this

/-- From a stopped state, the capturing cycle fires nothing and leaves the
trace and the registry store untouched (the per-entry `!binder.stopped`
filter rejects every listener), provided every remaining ancestor has a
registry. -/
theorem runCapture_stopped (cbs : Nat → CallbackAct) (typ : String) :
    ∀ (chain : List Nat) (s : DispatchState),
      s.binder.stopped = true →
      (∀ a ∈ chain, (lookupN s.internal a).isSome = true) →
      ∃ s', runCapture cbs typ chain s = .ok s' ∧ s'.trace = s.trace ∧
        s'.internal = s.internal ∧ s'.binder.stopped = true ∧
        s'.binder.target = s.binder.target
  | [], s, hs, _ => ⟨s, rfl, rfl, rfl, hs, rfl⟩
  | a :: rest, s, hs, hlook => by
    have hf : fireListeners cbs true typ
        (setPhaseHandler .CAPTURING_PHASE a s)
        = .ok (setPhaseHandler .CAPTURING_PHASE a s) :=
      fireListeners_stopped (by simp [hs])
        (by simp only [setPhaseHandler_internal, setPhaseHandler_handler]
            exact hlook a (List.mem_cons_self a rest))
    obtain ⟨s', hrec, htr, hint, hst, htg⟩ :=
      runCapture_stopped cbs typ rest
        (setPhaseHandler .CAPTURING_PHASE a s) (by simp [hs])
        (fun a' ha' => by
          simp only [setPhaseHandler_internal]
          exact hlook a' (List.mem_cons_of_mem _ ha'))
    refine ⟨s', ?_, by rw [htr]; simp, by rw [hint]; simp, hst,
      by rw [htg]; simp⟩
    rw [runCapture_cons, hf]
    exact hrec

/-- The capturing cycle over a concatenated chain is the sequential
composition of the two cycles. -/
theorem runCapture_append (cbs : Nat → CallbackAct) (typ : String) :
    ∀ (pre post : List Nat) (s : DispatchState),
      runCapture cbs typ (pre ++ post) s =
        match runCapture cbs typ pre s with
        | .error e => .error e
        | .ok s2 => runCapture cbs typ post s2
  | [], _, s => rfl
  | a :: pre, post, s => by
    show runCapture cbs typ (a :: (pre ++ post)) s = _
    rw [runCapture_cons, runCapture_cons]
    cases hf : fireListeners cbs true typ
        (setPhaseHandler .CAPTURING_PHASE a s) with
    | error e => rfl
    | ok s2 => exact runCapture_append cbs typ pre post s2

/-- A throw escaping the capturing cycle happens while the binder is in the
capturing phase; a callback exception leaves the thrower's record last. -/
theorem runCapture_err (cbs : Nat → CallbackAct) (typ : String) :
    ∀ (chain : List Nat) (s : DispatchState)
      (e : DispatchError × DispatchState),
      runCapture cbs typ chain s = .error e →
      e.2.binder.phase = .CAPTURING_PHASE ∧
      (e.1 = .callbackError →
        ∃ pre r, e.2.trace = pre ++ [r] ∧ cbs r.callback = .throwErr)
  | [], _, _, h => by cases h
  | a :: rest, s, e, h => by
    unfold runCapture at h
    revert h
    cases hf : fireListeners cbs true typ
        (setPhaseHandler .CAPTURING_PHASE a s) with
    | error e' =>
      intro h
      injection h with h
      subst h
      obtain ⟨h1, h2⟩ := fireListeners_err hf
      exact ⟨by rw [h1]; simp, h2⟩
    | ok s2 =>
      intro h
      exact runCapture_err cbs typ rest s2 e h

theorem runCapture_no_stop {cbs : Nat → CallbackAct} (typ : String)
    (hcbs : ∀ n, cbs n = .nop ∨ cbs n = .prevent) :
    ∀ (chain : List Nat) (s s' : DispatchState),
      runCapture cbs typ chain s = .ok s' →
      s'.binder.stopped = s.binder.stopped
  | [], s, s', h => by cases h; rfl
  | a :: rest, s, s', h => by
    unfold runCapture at h
    revert h
    cases hf : fireListeners cbs true typ
        (setPhaseHandler .CAPTURING_PHASE a s) with
    | error e => intro h; cases h
    | ok s2 =>
      intro h
      have h1 := fireListeners_no_stop hcbs hf
      have h2 := runCapture_no_stop typ hcbs rest s2 s' h
      rw [h2, h1]
      exact setPhaseHandler_stopped _ _ _

theorem runCapture_no_error {cbs : Nat → CallbackAct} (typ : String)
    (hcb : ∀ n, cbs n ≠ .throwErr) :
    ∀ (chain : List Nat) (s : DispatchState),
      (∀ a ∈ chain, (lookupN s.internal a).isSome = true) →
      ∃ s', runCapture cbs typ chain s = .ok s' ∧
        (∀ o, (lookupN s.internal o).isSome = true →
          (lookupN s'.internal o).isSome = true)
  | [], s, _ => ⟨s, rfl, fun _ ho => ho⟩
  | a :: rest, s, hlook => by
    obtain ⟨s2, hf, _⟩ :=
      fireListeners_no_error (s := setPhaseHandler .CAPTURING_PHASE a s)
        hcb (by
          simp only [setPhaseHandler_internal, setPhaseHandler_handler]
          exact hlook a (List.mem_cons_self a rest))
    have hkeep : ∀ o, (lookupN s.internal o).isSome = true →
        (lookupN s2.internal o).isSome = true := fun o ho =>
      fireListeners_keeps_keys hf o
        (by simp only [setPhaseHandler_internal]; exact ho)
    obtain ⟨s', hrec, hkeep'⟩ :=
      runCapture_no_error typ hcb rest s2 (fun a' ha' =>
        hkeep a' (hlook a' (List.mem_cons_of_mem _ ha')))
    refine ⟨s', ?_, fun o ho => hkeep' o (hkeep o ho)⟩
    rw [runCapture_cons, hf]
    exact hrec

theorem runCapture_noEmpty (cbs : Nat → CallbackAct) (typ : String) :
    ∀ (chain : List Nat) (s : DispatchState),
      noEmptyB s.internal = true →
      noEmptyB (resultState (runCapture cbs typ chain s)).internal = true
  | [], _, hinv => hinv
  | a :: rest, s, hinv => by
    rw [runCapture_cons]
    cases hf : fireListeners cbs true typ
        (setPhaseHandler .CAPTURING_PHASE a s) with
    | error e =>
      have := @fireListeners_noEmpty cbs true typ
        (setPhaseHandler .CAPTURING_PHASE a s) (by simpa using hinv)
      rw [hf] at this
      exact this
    | ok s2 =>
      have h2 := @fireListeners_noEmpty cbs true typ
        (setPhaseHandler .CAPTURING_PHASE a s) (by simpa using hinv)
      rw [hf] at h2
      exact runCapture_noEmpty cbs typ rest s2 h2

theorem runCapture_internal_once (cbs : Nat → CallbackAct) (typ : String) :
    ∀ (chain : List Nat) (s s' : DispatchState) (t : List FireRec),
      runCapture cbs typ chain s = .ok s' →
      s'.trace = s.trace ++ t → (∀ r ∈ t, r.once = false) →
      s'.internal = s.internal
  | [], s, s', t, h, _, _ => by cases h; rfl
  | a :: rest, s, s', t, h, htr, honce => by
    unfold runCapture at h
    revert h
    cases hf : fireListeners cbs true typ
        (setPhaseHandler .CAPTURING_PHASE a s) with
    | error e => intro h; cases h
    | ok s2 =>
      intro h
      obtain ⟨_, _, _, _, t1, ht1, _⟩ := fireListeners_frame hf
      obtain ⟨_, _, ts', hts', _⟩ := runCapture_frame cbs typ rest s2 s' h
      have hsplit : s.trace ++ t = s.trace ++ (t1 ++ ts'.flatten) := by
        rw [← htr, hts', ht1]
        simp
      have ht : t = t1 ++ ts'.flatten := List.append_cancel_left hsplit
      have h2 : s2.internal = s.internal := by
        have := fireListeners_internal_once hf (t := t1) ht1
          (fun r hr => honce r (by rw [ht]; exact List.mem_append_left _ hr))
        simpa using this
      have h1 : s'.internal = s2.internal := by
        refine runCapture_internal_once cbs typ rest s2 s' ts'.flatten h
          hts' ?_
        intro r hr
        exact honce r (by rw [ht]; exact List.mem_append_right _ hr)
      rw [h1, h2]

/-! ### Lemmas about the bubbling cycle -/

/-- One-step unfolding of the bubbling cycle. -/
theorem runBubble_cons (cbs : Nat → CallbackAct) (typ : String) (a : Nat)
    (rest : List Nat) (s : DispatchState) :
    runBubble cbs typ (a :: rest) s =
      if s.binder.stopped = true then .ok s
      else
        match fireListeners cbs false typ
            (setPhaseHandler .BUBBLING_PHASE a s) with
        | .error e => .error e
        | .ok s2 => runBubble cbs typ rest s2 := rfl

/-- The bubbling cycle checks the stopped latch before each ancestor: from
a stopped state it does nothing at all. -/
theorem runBubble_stopped (cbs : Nat → CallbackAct) (typ : String)
    (chain : List Nat) (s : DispatchState) (hs : s.binder.stopped = true) :
    runBubble cbs typ chain s = .ok s := by
  cases chain with
  | nil => rfl
  | cons a rest => rw [runBubble_cons, if_pos hs]

/-- Success decomposition of the bubbling cycle: the visited ancestors form
a prefix of the chain, each contributing a segment of bubble-phase records;
the iteration stops early only because the stopped latch was set. -/
theorem runBubble_frame (cbs : Nat → CallbackAct) (typ : String) :
    ∀ (chain : List Nat) (s s' : DispatchState),
      runBubble cbs typ chain s = .ok s' →
      s'.binder.target = s.binder.target ∧
      (s.binder.stopped = true → s'.binder.stopped = true) ∧
      ∃ pre post ts, chain = pre ++ post ∧
        s'.trace = s.trace ++ ts.flatten ∧
        List.Forall₂ (fun a t => phaseRecs a .BUBBLING_PHASE false t)
          pre ts ∧
        (post ≠ [] → s'.binder.stopped = true)
  | [], s, s', h => by
    cases h
    exact ⟨rfl, fun hh => hh, [], [], [], by simp, by simp,
      List.Forall₂.nil, fun hc => absurd rfl hc⟩
  | a :: rest, s, s', h => by
    rw [runBubble_cons] at h
    by_cases hs : s.binder.stopped = true
    · rw [if_pos hs] at h
      cases h
      exact ⟨rfl, fun hh => hh, [], a :: rest, [], by simp, by simp,
        List.Forall₂.nil, fun _ => hs⟩
    · rw [if_neg hs] at h
      revert h
      cases hf : fireListeners cbs false typ
          (setPhaseHandler .BUBBLING_PHASE a s) with
      | error e => intro h; cases h
      | ok s2 =>
        intro h
        obtain ⟨f1, f2, f3, f4, t, ht, hrec⟩ := fireListeners_frame hf
        obtain ⟨i1, i2, pre', post', ts', hchain, hts', hfa, hpost⟩ :=
          runBubble_frame cbs typ rest s2 s' h
        refine ⟨by rw [i1, f3]; simp, fun hh => i2 (f4 (by simp [hh])),
          a :: pre', post', t :: ts', by rw [hchain]; simp, ?_, ?_, hpost⟩
        · rw [hts', ht]
          simp
        · refine List.Forall₂.cons ?_ hfa
          intro r hr
          have := hrec r hr
          simpa using this

/-- A throw escaping the bubbling cycle happens in the bubbling phase; a
callback exception leaves the thrower's record last. -/
theorem runBubble_err (cbs : Nat → CallbackAct) (typ : String) :
    ∀ (chain : List Nat) (s : DispatchState)
      (e : DispatchError × DispatchState),
      runBubble cbs typ chain s = .error e →
      e.2.binder.phase = .BUBBLING_PHASE ∧
      (e.1 = .callbackError →
        ∃ pre r, e.2.trace = pre ++ [r] ∧ cbs r.callback = .throwErr)
  | [], _, _, h => by cases h
  | a :: rest, s, e, h => by
    rw [runBubble_cons] at h
    by_cases hs : s.binder.stopped = true
    · rw [if_pos hs] at h
      cases h
    · rw [if_neg hs] at h
      revert h
      cases hf : fireListeners cbs false typ
          (setPhaseHandler .BUBBLING_PHASE a s) with
      | error e' =>
        intro h
        injection h with h
        subst h
        obtain ⟨h1, h2⟩ := fireListeners_err hf
        exact ⟨by rw [h1]; simp, h2⟩
      | ok s2 =>
        intro h
        exact runBubble_err cbs typ rest s2 e h

theorem runBubble_no_stop {cbs : Nat → CallbackAct} (typ : String)
    (hcbs : ∀ n, cbs n = .nop ∨ cbs n = .prevent) :
    ∀ (chain : List Nat) (s s' : DispatchState),
      runBubble cbs typ chain s = .ok s' →
      s'.binder.stopped = s.binder.stopped
  | [], s, s', h => by cases h; rfl
  | a :: rest, s, s', h => by
    rw [runBubble_cons] at h
    by_cases hs : s.binder.stopped = true
    · rw [if_pos hs] at h
      cases h
      rfl
    · rw [if_neg hs] at h
      revert h
      cases hf : fireListeners cbs false typ
          (setPhaseHandler .BUBBLING_PHASE a s) with
      | error e => intro h; cases h
      | ok s2 =>
        intro h
        have h1 := fireListeners_no_stop hcbs hf
        have h2 := runBubble_no_stop typ hcbs rest s2 s' h
        rw [h2, h1]
        exact setPhaseHandler_stopped _ _ _

theorem runBubble_no_error {cbs : Nat → CallbackAct} (typ : String)
    (hcb : ∀ n, cbs n ≠ .throwErr) :
    ∀ (chain : List Nat) (s : DispatchState),
      (∀ a ∈ chain, (lookupN s.internal a).isSome = true) →
      ∃ s', runBubble cbs typ chain s = .ok s' ∧
        (∀ o, (lookupN s.internal o).isSome = true →
          (lookupN s'.internal o).isSome = true)
  | [], s, _ => ⟨s, rfl, fun _ ho => ho⟩
  | a :: rest, s, hlook => by
    by_cases hs : s.binder.stopped = true
    · exact ⟨s, by rw [runBubble_cons, if_pos hs], fun _ ho => ho⟩
    · obtain ⟨s2, hf, _⟩ :=
        fireListeners_no_error (s := setPhaseHandler .BUBBLING_PHASE a s)
          hcb (by
            simp only [setPhaseHandler_internal, setPhaseHandler_handler]
            exact hlook a (List.mem_cons_self a rest))
      have hkeep : ∀ o, (lookupN s.internal o).isSome = true →
          (lookupN s2.internal o).isSome = true := fun o ho =>
        fireListeners_keeps_keys hf o
          (by simp only [setPhaseHandler_internal]; exact ho)
      obtain ⟨s', hrec, hkeep'⟩ :=
        runBubble_no_error typ hcb rest s2 (fun a' ha' =>
          hkeep a' (hlook a' (List.mem_cons_of_mem _ ha')))
      refine ⟨s', ?_, fun o ho => hkeep' o (hkeep o ho)⟩
      rw [runBubble_cons, if_neg hs, hf]
      exact hrec

theorem runBubble_noEmpty (cbs : Nat → CallbackAct) (typ : String) :
    ∀ (chain : List Nat) (s : DispatchState),
      noEmptyB s.internal = true →
      noEmptyB (resultState (runBubble cbs typ chain s)).internal = true
  | [], _, hinv => hinv
  | a :: rest, s, hinv => by
    rw [runBubble_cons]
    by_cases hs : s.binder.stopped = true
    · rw [if_pos hs]
      exact hinv
    · rw [if_neg hs]
      cases hf : fireListeners cbs false typ
          (setPhaseHandler .BUBBLING_PHASE a s) with
      | error e =>
        have := @fireListeners_noEmpty cbs false typ
          (setPhaseHandler .BUBBLING_PHASE a s) (by simpa using hinv)
        rw [hf] at this
        exact this
      | ok s2 =>
        have h2 := @fireListeners_noEmpty cbs false typ
          (setPhaseHandler .BUBBLING_PHASE a s) (by simpa using hinv)
        rw [hf] at h2
        exact runBubble_noEmpty cbs typ rest s2 h2

theorem runBubble_internal_once (cbs : Nat → CallbackAct) (typ : String) :
    ∀ (chain : List Nat) (s s' : DispatchState) (t : List FireRec),
      runBubble cbs typ chain s = .ok s' →
      s'.trace = s.trace ++ t → (∀ r ∈ t, r.once = false) →
      s'.internal = s.internal
  | [], s, s', t, h, _, _ => by cases h; rfl
  | a :: rest, s, s', t, h, htr, honce => by
    rw [runBubble_cons] at h
    by_cases hs : s.binder.stopped = true
    · rw [if_pos hs] at h
      cases h
      rfl
    · rw [if_neg hs] at h
      revert h
      cases hf : fireListeners cbs false typ
          (setPhaseHandler .BUBBLING_PHASE a s) with
      | error e => intro h; cases h
      | ok s2 =>
        intro h
        obtain ⟨_, _, _, _, t1, ht1, _⟩ := fireListeners_frame hf
        obtain ⟨_, _, _, _, ts', _, hts', _, _⟩ :=
          runBubble_frame cbs typ rest s2 s' h
        have hsplit : s.trace ++ t = s.trace ++ (t1 ++ ts'.flatten) := by
          rw [← htr, hts', ht1]
          simp
        have ht : t = t1 ++ ts'.flatten := List.append_cancel_left hsplit
        have h2 : s2.internal = s.internal := by
          have := fireListeners_internal_once hf (t := t1) ht1
            (fun r hr => honce r
              (by rw [ht]; exact List.mem_append_left _ hr))
          simpa using this
        have h1 : s'.internal = s2.internal := by
          refine runBubble_internal_once cbs typ rest s2 s' ts'.flatten h
            hts' ?_
          intro r hr
          exact honce r (by rw [ht]; exact List.mem_append_right _ hr)
        rw [h1, h2]

/-! ### Lemmas about the at-target steps and the bubbling guard -/

theorem runAtTargetCapture_spec {cbs : Nat → CallbackAct} {typ : String}
    {node : Nat} {s s' : DispatchState}
    (h : runAtTargetCapture cbs typ node s = .ok s') :
    s'.binder.target = s.binder.target ∧
    (s.binder.stopped = true → s' = s) ∧
    (s.binder.stopped = false →
      s'.binder.phase = .AT_TARGET ∧ s'.binder.handler = node) ∧
    ∃ t, s'.trace = s.trace ++ t ∧ phaseRecs node .AT_TARGET true t ∧
      (s.binder.stopped = true → t = []) := by
  unfold runAtTargetCapture at h
  by_cases hs : s.binder.stopped = true
  · rw [if_pos hs] at h
    cases h
    refine ⟨rfl, fun _ => rfl, fun hc => ?_, [], by simp, ?_, fun _ => rfl⟩
    · rw [hs] at hc
      cases hc
    · simp [phaseRecs]
  · rw [if_neg hs] at h
    obtain ⟨f1, f2, f3, _, t, ht, hrec⟩ := fireListeners_frame h
    refine ⟨by rw [f3]; simp, fun hc => absurd hc hs,
      fun _ => ⟨by rw [f2]; simp, by rw [f1]; simp⟩, t, by rw [ht]; simp,
      ?_, fun hc => absurd hc hs⟩
    intro r hr
    have := hrec r hr
    simpa using this

theorem runAtTargetCapture_err {cbs : Nat → CallbackAct} {typ : String}
    {node : Nat} {s : DispatchState} {e : DispatchError × DispatchState}
    (h : runAtTargetCapture cbs typ node s = .error e) :
    s.binder.stopped = false ∧ e.2.binder.phase = .AT_TARGET ∧
    (e.1 = .callbackError →
      ∃ pre r, e.2.trace = pre ++ [r] ∧ cbs r.callback = .throwErr) := by
  unfold runAtTargetCapture at h
  by_cases hs : s.binder.stopped = true
  · rw [if_pos hs] at h
    cases h
  · rw [if_neg hs] at h
    obtain ⟨h1, h2⟩ := fireListeners_err h
    exact ⟨by simp [hs], by rw [h1]; simp, h2⟩

theorem runAtTargetBubble_spec {cbs : Nat → CallbackAct} {typ : String}
    {s s' : DispatchState}
    (h : runAtTargetBubble cbs typ s = .ok s') :
    s'.binder.target = s.binder.target ∧
    s'.binder.handler = s.binder.handler ∧
    s'.binder.phase = s.binder.phase ∧
    (s.binder.stopped = true → s' = s) ∧
    ∃ t, s'.trace = s.trace ++ t ∧
      phaseRecs s.binder.handler s.binder.phase false t ∧
      (s.binder.stopped = true → t = []) := by
  unfold runAtTargetBubble at h
  by_cases hs : s.binder.stopped = true
  · rw [if_pos hs] at h
    cases h
    refine ⟨rfl, rfl, rfl, fun _ => rfl, [], by simp, ?_, fun _ => rfl⟩
    simp [phaseRecs]
  · rw [if_neg hs] at h
    obtain ⟨f1, f2, f3, _, t, ht, hrec⟩ := fireListeners_frame h
    exact ⟨f3, f1, f2, fun hc => absurd hc hs, t, ht, hrec,
      fun hc => absurd hc hs⟩

theorem runAtTargetBubble_err {cbs : Nat → CallbackAct} {typ : String}
    {s : DispatchState} {e : DispatchError × DispatchState}
    (h : runAtTargetBubble cbs typ s = .error e) :
    s.binder.stopped = false ∧ e.2.binder.phase = s.binder.phase ∧
    (e.1 = .callbackError →
      ∃ pre r, e.2.trace = pre ++ [r] ∧ cbs r.callback = .throwErr) := by
  unfold runAtTargetBubble at h
  by_cases hs : s.binder.stopped = true
  · rw [if_pos hs] at h
    cases h
  · rw [if_neg hs] at h
    obtain ⟨h1, h2⟩ := fireListeners_err h
    exact ⟨by simp [hs], h1, h2⟩

/-- The outer `if (!binder.stopped)` guard around the bubbling cycle is
redundant: the cycle's own head check already returns immediately. -/
theorem runBubblePhase_eq (cbs : Nat → CallbackAct) (typ : String)
    (anc : List Nat) (s : DispatchState) :
    runBubblePhase cbs typ anc s = runBubble cbs typ anc s := by
  unfold runBubblePhase
  by_cases hs : s.binder.stopped = true
  · rw [if_pos hs, runBubble_stopped cbs typ anc s hs]
  · rw [if_neg hs]

/-! ### Decomposition of `dispatchEvent` -/

theorem dispatchEvent_ok_decomp {cbs : Nat → CallbackAct} {anc : List Nat}
    {node : Nat} {typ : String} {internal : Internal} {b : Bool}
    {s' : DispatchState}
    (h : dispatchEvent cbs anc node typ internal = .ok (b, s')) :
    ∃ sC s1 s2 s3,
      runCapture cbs typ anc.reverse (initState node internal) = .ok sC ∧
      runAtTargetCapture cbs typ node sC = .ok s1 ∧
      runAtTargetBubble cbs typ s1 = .ok s2 ∧
      runBubblePhase cbs typ anc s2 = .ok s3 ∧
      b = !s3.binder.stopped ∧
      s' = { s3 with binder := { s3.binder with phase := .NONE } } := by
  unfold dispatchEvent at h
  revert h
  cases hC : runCapture cbs typ anc.reverse (initState node internal) with
  | error e => intro h; dsimp only at h; cases h
  | ok sC =>
    intro h
    dsimp only at h
    revert h
    cases h1 : runAtTargetCapture cbs typ node sC with
    | error e => intro h; dsimp only at h; cases h
    | ok s1 =>
      intro h
      dsimp only at h
      revert h
      cases h2 : runAtTargetBubble cbs typ s1 with
      | error e => intro h; dsimp only at h; cases h
      | ok s2 =>
        intro h
        dsimp only at h
        revert h
        cases h3 : runBubblePhase cbs typ anc s2 with
        | error e => intro h; dsimp only at h; cases h
        | ok s3 =>
          intro h
          dsimp only at h
          injection h with h
          injection h with hb hs
          exact ⟨sC, s1, s2, s3, rfl, h1, h2, h3, hb.symm, hs.symm⟩

theorem dispatchEvent_err_decomp {cbs : Nat → CallbackAct} {anc : List Nat}
    {node : Nat} {typ : String} {internal : Internal}
    {e : DispatchError × DispatchState}
    (h : dispatchEvent cbs anc node typ internal = .error e) :
    runCapture cbs typ anc.reverse (initState node internal) = .error e ∨
    (∃ sC, runCapture cbs typ anc.reverse (initState node internal)
        = .ok sC ∧ runAtTargetCapture cbs typ node sC = .error e) ∨
    (∃ sC s1, runCapture cbs typ anc.reverse (initState node internal)
        = .ok sC ∧ runAtTargetCapture cbs typ node sC = .ok s1 ∧
      runAtTargetBubble cbs typ s1 = .error e) ∨
    (∃ sC s1 s2, runCapture cbs typ anc.reverse (initState node internal)
        = .ok sC ∧ runAtTargetCapture cbs typ node sC = .ok s1 ∧
      runAtTargetBubble cbs typ s1 = .ok s2 ∧
      runBubblePhase cbs typ anc s2 = .error e) := by
  unfold dispatchEvent at h
  revert h
  cases hC : runCapture cbs typ anc.reverse (initState node internal) with
  | error e' =>
    intro h
    dsimp only at h
    injection h with h
    subst h
    exact Or.inl rfl
  | ok sC =>
    intro h
    dsimp only at h
    revert h
    cases h1 : runAtTargetCapture cbs typ node sC with
    | error e' =>
      intro h
      dsimp only at h
      injection h with h
      subst h
      exact Or.inr (Or.inl ⟨sC, rfl, h1⟩)
    | ok s1 =>
      intro h
      dsimp only at h
      revert h
      cases h2 : runAtTargetBubble cbs typ s1 with
      | error e' =>
        intro h
        dsimp only at h
        injection h with h
        subst h
        exact Or.inr (Or.inr (Or.inl ⟨sC, s1, rfl, h1, h2⟩))
      | ok s2 =>
        intro h
        dsimp only at h
        revert h
        cases h3 : runBubblePhase cbs typ anc s2 with
        | error e' =>
          intro h
          dsimp only at h
          injection h with h
          subst h
          exact Or.inr (Or.inr (Or.inr ⟨sC, s1, s2, rfl, h1, h2, h3⟩))
        | ok s3 => intro h; dsimp only at h; cases h

theorem runAtTargetCapture_no_stop {cbs : Nat → CallbackAct}
    {typ : String} {node : Nat} {s s' : DispatchState}
    (hcbs : ∀ n, cbs n = .nop ∨ cbs n = .prevent)
    (h : runAtTargetCapture cbs typ node s = .ok s') :
    s'.binder.stopped = s.binder.stopped := by
  unfold runAtTargetCapture at h
  by_cases hs : s.binder.stopped = true
  · rw [if_pos hs] at h
    cases h
    rfl
  · rw [if_neg hs] at h
    have := fireListeners_no_stop hcbs h
    rw [this]
    simp

theorem runAtTargetBubble_no_stop {cbs : Nat → CallbackAct}
    {typ : String} {s s' : DispatchState}
    (hcbs : ∀ n, cbs n = .nop ∨ cbs n = .prevent)
    (h : runAtTargetBubble cbs typ s = .ok s') :
    s'.binder.stopped = s.binder.stopped := by
  unfold runAtTargetBubble at h
  by_cases hs : s.binder.stopped = true
  · rw [if_pos hs] at h
    cases h
    rfl
  · rw [if_neg hs] at h
    exact fireListeners_no_stop hcbs h

theorem runAtTargetCapture_noEmpty {cbs : Nat → CallbackAct}
    {typ : String} {node : Nat} {s : DispatchState}
    (hinv : noEmptyB s.internal = true) :
    noEmptyB (resultState (runAtTargetCapture cbs typ node s)).internal
      = true := by
  unfold runAtTargetCapture
  by_cases hs : s.binder.stopped = true
  · rw [if_pos hs]
    exact hinv
  · rw [if_neg hs]
    exact fireListeners_noEmpty (by simpa using hinv)

theorem runAtTargetBubble_noEmpty {cbs : Nat → CallbackAct}
    {typ : String} {s : DispatchState}
    (hinv : noEmptyB s.internal = true) :
    noEmptyB (resultState (runAtTargetBubble cbs typ s)).internal
      = true := by
  unfold runAtTargetBubble
  by_cases hs : s.binder.stopped = true
  · rw [if_pos hs]
    exact hinv
  · rw [if_neg hs]
    exact fireListeners_noEmpty hinv

theorem runAtTargetCapture_internal_once {cbs : Nat → CallbackAct}
    {typ : String} {node : Nat} {s s' : DispatchState} {t : List FireRec}
    (h : runAtTargetCapture cbs typ node s = .ok s')
    (htr : s'.trace = s.trace ++ t) (honce : ∀ r ∈ t, r.once = false) :
    s'.internal = s.internal := by
  unfold runAtTargetCapture at h
  by_cases hs : s.binder.stopped = true
  · rw [if_pos hs] at h
    cases h
    rfl
  · rw [if_neg hs] at h
    have := fireListeners_internal_once h (t := t) (by simpa using htr)
      honce
    simpa using this

theorem runAtTargetBubble_internal_once {cbs : Nat → CallbackAct}
    {typ : String} {s s' : DispatchState} {t : List FireRec}
    (h : runAtTargetBubble cbs typ s = .ok s')
    (htr : s'.trace = s.trace ++ t) (honce : ∀ r ∈ t, r.once = false) :
    s'.internal = s.internal := by
  unfold runAtTargetBubble at h
  by_cases hs : s.binder.stopped = true
  · rw [if_pos hs] at h
    cases h
    rfl
  · rw [if_neg hs] at h
    exact fireListeners_internal_once h htr honce

/-! ### Silent traversal: registries present, no bucket for the type -/

theorem runCapture_silent (cbs : Nat → CallbackAct) (typ : String) :
    ∀ (chain : List Nat) (s : DispatchState),
      (∀ a ∈ chain, ∃ reg, lookupN s.internal a = some reg ∧
        lookupS reg typ = none) →
      ∃ s', runCapture cbs typ chain s = .ok s' ∧ s'.trace = s.trace ∧
        s'.internal = s.internal ∧
        s'.binder.stopped = s.binder.stopped
  | [], s, _ => ⟨s, rfl, rfl, rfl, rfl⟩
  | a :: rest, s, hlook => by
    obtain ⟨reg, hr, hbk⟩ := hlook a (List.mem_cons_self a rest)
    have hf : fireListeners cbs true typ
        (setPhaseHandler .CAPTURING_PHASE a s)
        = .ok (setPhaseHandler .CAPTURING_PHASE a s) :=
      @fireListeners_silent cbs true typ
        (setPhaseHandler .CAPTURING_PHASE a s) reg (by simpa using hr) hbk
    obtain ⟨s', hrec, htr, hint, hst⟩ :=
      runCapture_silent cbs typ rest (setPhaseHandler .CAPTURING_PHASE a s)
        (fun a' ha' => by
          simp only [setPhaseHandler_internal]
          exact hlook a' (List.mem_cons_of_mem _ ha'))
    refine ⟨s', ?_, by rw [htr]; simp, by rw [hint]; simp,
      by rw [hst]; simp⟩
    rw [runCapture_cons, hf]
    exact hrec

theorem runBubble_silent (cbs : Nat → CallbackAct) (typ : String) :
    ∀ (chain : List Nat) (s : DispatchState),
      (∀ a ∈ chain, ∃ reg, lookupN s.internal a = some reg ∧
        lookupS reg typ = none) →
      ∃ s', runBubble cbs typ chain s = .ok s' ∧ s'.trace = s.trace ∧
        s'.internal = s.internal ∧
        s'.binder.stopped = s.binder.stopped
  | [], s, _ => ⟨s, rfl, rfl, rfl, rfl⟩
  | a :: rest, s, hlook => by
    by_cases hs : s.binder.stopped = true
    · exact ⟨s, by rw [runBubble_cons, if_pos hs], rfl, rfl, rfl⟩
    · obtain ⟨reg, hr, hbk⟩ := hlook a (List.mem_cons_self a rest)
      have hf : fireListeners cbs false typ
          (setPhaseHandler .BUBBLING_PHASE a s)
          = .ok (setPhaseHandler .BUBBLING_PHASE a s) :=
        @fireListeners_silent cbs false typ
          (setPhaseHandler .BUBBLING_PHASE a s) reg (by simpa using hr) hbk
      obtain ⟨s', hrec, htr, hint, hst⟩ :=
        runBubble_silent cbs typ rest (setPhaseHandler .BUBBLING_PHASE a s)
          (fun a' ha' => by
            simp only [setPhaseHandler_internal]
            exact hlook a' (List.mem_cons_of_mem _ ha'))
      refine ⟨s', ?_, by rw [htr]; simp, by rw [hint]; simp,
        by rw [hst]; simp⟩
      rw [runBubble_cons, if_neg hs, hf]
      exact hrec

/-! ### Claim theorems -/

/-- C3 (counterexample evaluation): with a bucket `[A(once), B]` of two
bubble listeners, dispatching fires `A`, the `once` path splices `A` out of
the bucket, and the loop index then skips `B` entirely: only callback `1`
is invoked in that phase even though `B` (callback `2`) was a live entry at
phase start and is still registered afterwards.  This contradicts the
claim that the entry immediately following the removed `once` entry is not
skipped. -/
theorem once_removal_skips_next_entry :
    Except.map
        (fun p =>
          (p.1, p.2.trace.map FireRec.callback, lookupN p.2.internal 0))
        (dispatchEvent (fun _ => CallbackAct.nop) [] 0 "x"
          [(0, [("x", [⟨1, false, false, false, true⟩,
                       ⟨2, false, false, false, false⟩])])])
      = .ok (true, [1],
          some [("x", [⟨2, false, false, false, false⟩])]) := rfl

/-- C4: the boolean a dispatch returns is exactly the negation of the
stopped latch at the end of traversal, and when every callback only calls
`preventDefault` (or nothing), the result is `true`. -/
theorem dispatch_result_iff_not_stopped {cbs : Nat → CallbackAct}
    {anc : List Nat} {node : Nat} {typ : String} {internal : Internal}
    {b : Bool} {s' : DispatchState}
    (h : dispatchEvent cbs anc node typ internal = .ok (b, s')) :
    b = !s'.binder.stopped ∧
    ((∀ n, cbs n = .nop ∨ cbs n = .prevent) → b = true) := by
  obtain ⟨sC, s1, s2, s3, hC, h1, h2, h3, hb, hs'⟩ :=
    dispatchEvent_ok_decomp h
  subst hs'
  constructor
  · rw [hb]
  · intro hcbs
    have e0 : sC.binder.stopped
        = (initState node internal).binder.stopped :=
      runCapture_no_stop typ hcbs anc.reverse _ sC hC
    have e1 := runAtTargetCapture_no_stop hcbs h1
    have e2 := runAtTargetBubble_no_stop hcbs h2
    rw [runBubblePhase_eq] at h3
    have e3 := runBubble_no_stop typ hcbs anc s2 s3 h3
    rw [hb, e3, e2, e1, e0]
    rfl

/-- C4 witness: a dispatch whose only listener calls `preventDefault`
returns `true`. -/
theorem dispatch_result_iff_not_stopped_witness :
    (true : Bool) = !stPrevent.binder.stopped ∧
    ((∀ n : Nat, (fun _ : Nat => CallbackAct.prevent) n = CallbackAct.nop ∨
        (fun _ : Nat => CallbackAct.prevent) n = CallbackAct.prevent) →
      (true : Bool) = true) :=
  @dispatch_result_iff_not_stopped (fun _ : Nat => CallbackAct.prevent)
    [] 0 "x" intPrevent true stPrevent rfl

/-- C5 (spec-modelled: `Event.ts` is not under `src`): while the context's
passive flag is set — as it is whenever the aligned, currently executing
listener was registered passive — `preventDefault` and `stopPropagation`
are complete no-ops on the shared state, and no callback effect can change
the state at all. -/
theorem passive_listener_noop {s : DispatchState}
    (hp : s.binder.passive = true) :
    preventDefault s = s ∧ stopPropagation s = s ∧
    ∀ (act : CallbackAct) (s' : DispatchState),
      runCallback act s = .ok s' → s' = s := by
  have h1 : preventDefault s = s := by
    unfold preventDefault
    rw [hp]
    simp
  have h2 : stopPropagation s = s := by
    unfold stopPropagation
    rw [hp]
    simp
  refine ⟨h1, h2, ?_⟩
  intro act s' h
  cases act <;> simp [runCallback, h1, h2] at h <;> exact h.symm

/-- C5 witness: the no-op behaviour at a concrete passive state. -/
theorem passive_listener_noop_witness :
    stPassive.binder.passive = true ∧
    (preventDefault stPassive = stPassive ∧
     stopPropagation stPassive = stPassive ∧
     ∀ (act : CallbackAct) (s' : DispatchState),
       runCallback act stPassive = .ok s' → s' = stPassive) :=
  ⟨rfl, passive_listener_noop rfl⟩

/-- C10: a dispatch in which no invoked listener was registered `once`
leaves every registry — every object, bucket, entry and flag — exactly as
it was before the call.  (Modelled callbacks cannot re-enter `listen` or
`unlisten`, matching the claim's other proviso.) -/
theorem dispatch_no_once_preserves_registries {cbs : Nat → CallbackAct}
    {anc : List Nat} {node : Nat} {typ : String} {internal : Internal}
    {b : Bool} {s' : DispatchState}
    (h : dispatchEvent cbs anc node typ internal = .ok (b, s'))
    (honce : ∀ r ∈ s'.trace, r.once = false) :
    s'.internal = internal := by
  obtain ⟨sC, s1, s2, s3, hC, h1, h2, h3, hb, hs'⟩ :=
    dispatchEvent_ok_decomp h
  subst hs'
  obtain ⟨_, _, tsC, htC, _⟩ := runCapture_frame cbs typ anc.reverse _ sC hC
  obtain ⟨_, _, _, t1, ht1, _, _⟩ := runAtTargetCapture_spec h1
  obtain ⟨_, _, _, _, t2, ht2, _, _⟩ := runAtTargetBubble_spec h2
  rw [runBubblePhase_eq] at h3
  obtain ⟨_, _, _, _, ts3, _, ht3, _, _⟩ :=
    runBubble_frame cbs typ anc s2 s3 h3
  have honce3 : ∀ r ∈ s3.trace, r.once = false := honce
  have hm3 : ∀ r ∈ ts3.flatten, r.once = false := fun r hr =>
    honce3 r (by rw [ht3]; exact List.mem_append_right _ hr)
  have h3int : s3.internal = s2.internal :=
    runBubble_internal_once cbs typ anc s2 s3 ts3.flatten h3 ht3 hm3
  have hm2 : ∀ r ∈ t2, r.once = false := fun r hr =>
    honce3 r (by
      rw [ht3]
      exact List.mem_append_left _ (by
        rw [ht2]; exact List.mem_append_right _ hr))
  have h2int : s2.internal = s1.internal :=
    runAtTargetBubble_internal_once h2 ht2 hm2
  have hm1 : ∀ r ∈ t1, r.once = false := fun r hr =>
    honce3 r (by
      rw [ht3]
      exact List.mem_append_left _ (by
        rw [ht2]
        exact List.mem_append_left _ (by
          rw [ht1]; exact List.mem_append_right _ hr)))
  have h1int : s1.internal = sC.internal :=
    runAtTargetCapture_internal_once h1 ht1 hm1
  have hmC : ∀ r ∈ tsC.flatten, r.once = false := fun r hr =>
    honce3 r (by
      rw [ht3]
      exact List.mem_append_left _ (by
        rw [ht2]
        exact List.mem_append_left _ (by
          rw [ht1]
          exact List.mem_append_left _ (by
            rw [htC]; exact List.mem_append_right _ hr))))
  have hCint : sC.internal = (initState node internal).internal :=
    runCapture_internal_once cbs typ anc.reverse _ sC tsC.flatten hC htC
      hmC
  show s3.internal = internal
  rw [h3int, h2int, h1int, hCint]
  rfl

/-- C10 witness: a two-level dispatch with four non-`once` listeners
returns with every registry unchanged. -/
theorem dispatch_no_once_preserves_registries_witness :
    stTwoLevel.internal = intTwoLevel :=
  @dispatch_no_once_preserves_registries (fun _ : Nat => CallbackAct.nop)
    [1] 0 "y" intTwoLevel true stTwoLevel rfl (by decide)

/-- C2: once a (non-passive) listener has stopped propagation during the
capturing phase — i.e. the state after some prefix of the capture cycle is
stopped — no further listener of the dispatch fires: the remaining capture
ancestors contribute nothing, the at-target and bubbling phases are
skipped, the trace is frozen at the stopping point, and the dispatch
returns `false`. -/
theorem stop_during_capture_blocks_rest {cbs : Nat → CallbackAct}
    {anc pre post : List Nat} {node : Nat} {typ : String}
    {internal : Internal} {s1 : DispatchState}
    (hsplit : anc.reverse = pre ++ post)
    (hpre : runCapture cbs typ pre (initState node internal) = .ok s1)
    (hstop : s1.binder.stopped = true)
    (hreg : ∀ a ∈ post, (lookupN s1.internal a).isSome = true) :
    ∃ s', dispatchEvent cbs anc node typ internal = .ok (false, s') ∧
      s'.trace = s1.trace ∧ s'.internal = s1.internal := by
  obtain ⟨sC, hpost, htr, hint, hstC, _⟩ :=
    runCapture_stopped cbs typ post s1 hstop hreg
  refine ⟨{ sC with binder := { sC.binder with phase := .NONE } }, ?_,
    by simpa using htr, by simpa using hint⟩
  unfold dispatchEvent
  rw [hsplit, runCapture_append cbs typ pre post (initState node internal),
    hpre]
  dsimp only
  rw [hpost]
  dsimp only
  unfold runAtTargetCapture
  rw [if_pos hstC]
  dsimp only
  unfold runAtTargetBubble
  rw [if_pos hstC]
  dsimp only
  unfold runBubblePhase
  rw [if_pos hstC]
  dsimp only
  rw [hstC]
  rfl

/-- C2 witness: with ancestors `[1, 2]`, the stopping capture listener on
the root `2` fires first; the capture listener on the not-yet-visited
ancestor `1`, both at-target kinds, and all bubble listeners never run,
and the dispatch returns `false`. -/
theorem stop_during_capture_blocks_rest_witness :
    ∃ s', dispatchEvent cbsStop [1, 2] 0 "x" intStop
        = .ok (false, s') ∧
      s'.trace = stStopMid.trace ∧ s'.internal = stStopMid.internal :=
  @stop_during_capture_blocks_rest cbsStop [1, 2] [2] [1] 0 "x" intStop
    stStopMid (by decide) rfl rfl (by decide)

/-- C1: the overall invocation order of a dispatch.  The trace decomposes
into four consecutive blocks: first the capturing phase — one segment per
ancestor, visited from the root end (`anc.reverse` front) toward the
nearest parent, each containing only capture-registered listeners of that
ancestor fired in the capturing phase; then, gated on the stopped latch,
the target's capture-registered listeners and after them the target's
bubble-registered listeners, both in the at-target phase; finally the
bubbling phase — a prefix of the ancestor chain from the nearest parent
toward the root, bubble-registered listeners only, the latch being checked
before each ancestor (a proper prefix only when the latch was set). -/
theorem dispatch_phase_order {cbs : Nat → CallbackAct} {anc : List Nat}
    {node : Nat} {typ : String} {internal : Internal} {b : Bool}
    {s' : DispatchState}
    (h : dispatchEvent cbs anc node typ internal = .ok (b, s')) :
    ∃ sC s1 s2 s3 tsC tT1 tT2 preB postB tsB,
      runCapture cbs typ anc.reverse (initState node internal) = .ok sC ∧
      runAtTargetCapture cbs typ node sC = .ok s1 ∧
      runAtTargetBubble cbs typ s1 = .ok s2 ∧
      runBubblePhase cbs typ anc s2 = .ok s3 ∧
      List.Forall₂ (fun a t => phaseRecs a .CAPTURING_PHASE true t)
        anc.reverse tsC ∧
      sC.trace = tsC.flatten ∧
      s1.trace = sC.trace ++ tT1 ∧
      phaseRecs node .AT_TARGET true tT1 ∧
      (sC.binder.stopped = true → tT1 = []) ∧
      s2.trace = s1.trace ++ tT2 ∧
      phaseRecs node .AT_TARGET false tT2 ∧
      (s1.binder.stopped = true → tT2 = []) ∧
      anc = preB ++ postB ∧
      List.Forall₂ (fun a t => phaseRecs a .BUBBLING_PHASE false t)
        preB tsB ∧
      s3.trace = s2.trace ++ tsB.flatten ∧
      (s2.binder.stopped = true → tsB = []) ∧
      (postB ≠ [] → s3.binder.stopped = true) ∧
      s'.trace = tsC.flatten ++ tT1 ++ tT2 ++ tsB.flatten ∧
      b = !s3.binder.stopped := by
  obtain ⟨sC, s1, s2, s3, hC, h1, h2, h3, hb, hs'⟩ :=
    dispatchEvent_ok_decomp h
  subst hs'
  obtain ⟨_, _, tsC, htC, hfaC⟩ :=
    runCapture_frame cbs typ anc.reverse _ sC hC
  have htC' : sC.trace = tsC.flatten := by simpa using htC
  obtain ⟨_, hstop1, hphase1, tT1, ht1, hrec1, hstopt1⟩ :=
    runAtTargetCapture_spec h1
  obtain ⟨_, hh2, hp2, hstop2, tT2, ht2, hrec2, hstopt2⟩ :=
    runAtTargetBubble_spec h2
  have hrec2' : phaseRecs node .AT_TARGET false tT2 := by
    by_cases hs1 : s1.binder.stopped = true
    · rw [hstopt2 hs1]
      intro r hr
      cases hr
    · have hsC : sC.binder.stopped = false := by
        by_cases hsC' : sC.binder.stopped = true
        · have heq := hstop1 hsC'
          rw [heq] at hs1
          exact absurd hsC' hs1
        · exact eq_false_of_ne_true hsC'
      obtain ⟨hph, hhd⟩ := hphase1 hsC
      rw [hhd, hph] at hrec2
      exact hrec2
  by_cases hs2 : s2.binder.stopped = true
  · have h3' : s3 = s2 := by
      have h3c := h3
      rw [runBubblePhase_eq, runBubble_stopped cbs typ anc s2 hs2] at h3c
      injection h3c with h3c
      exact h3c.symm
    refine ⟨sC, s1, s2, s3, tsC, tT1, tT2, [], anc, [], hC, h1, h2, h3,
      hfaC, htC', ht1, hrec1, hstopt1, ht2, hrec2', hstopt2, by simp,
      List.Forall₂.nil, by rw [h3']; simp, fun _ => rfl,
      fun _ => by rw [h3']; exact hs2, ?_, hb⟩
    show s3.trace = tsC.flatten ++ tT1 ++ tT2 ++ List.flatten []
    rw [h3', ht2, ht1, htC']
    simp
  · have h3b := h3
    rw [runBubblePhase_eq] at h3b
    obtain ⟨_, _, preB, postB, tsB, hchain, htB, hfaB, hpostB⟩ :=
      runBubble_frame cbs typ anc s2 s3 h3b
    refine ⟨sC, s1, s2, s3, tsC, tT1, tT2, preB, postB, tsB, hC, h1, h2,
      h3, hfaC, htC', ht1, hrec1, hstopt1, ht2, hrec2', hstopt2, hchain,
      hfaB, htB, fun hc => absurd hc hs2, hpostB, ?_, hb⟩
    show s3.trace = tsC.flatten ++ tT1 ++ tT2 ++ tsB.flatten
    rw [htB, ht2, ht1, htC']

/-- C1 witness: the four-phase order on the two-level scenario — capture
listener of the parent, then the target's capture listener, then the
target's bubble listener, then the parent's bubble listener. -/
theorem dispatch_phase_order_witness :
    ∃ sC s1 s2 s3 tsC tT1 tT2 preB postB tsB,
      runCapture (fun _ : Nat => CallbackAct.nop) "y" ([1] : List Nat).reverse
          (initState 0 intTwoLevel) = .ok sC ∧
      runAtTargetCapture (fun _ : Nat => CallbackAct.nop) "y" 0 sC
          = .ok s1 ∧
      runAtTargetBubble (fun _ : Nat => CallbackAct.nop) "y" s1 = .ok s2 ∧
      runBubblePhase (fun _ : Nat => CallbackAct.nop) "y" [1] s2
          = .ok s3 ∧
      List.Forall₂ (fun a t => phaseRecs a .CAPTURING_PHASE true t)
        ([1] : List Nat).reverse tsC ∧
      sC.trace = tsC.flatten ∧
      s1.trace = sC.trace ++ tT1 ∧
      phaseRecs 0 .AT_TARGET true tT1 ∧
      (sC.binder.stopped = true → tT1 = []) ∧
      s2.trace = s1.trace ++ tT2 ∧
      phaseRecs 0 .AT_TARGET false tT2 ∧
      (s1.binder.stopped = true → tT2 = []) ∧
      ([1] : List Nat) = preB ++ postB ∧
      List.Forall₂ (fun a t => phaseRecs a .BUBBLING_PHASE false t)
        preB tsB ∧
      s3.trace = s2.trace ++ tsB.flatten ∧
      (s2.binder.stopped = true → tsB = []) ∧
      (postB ≠ [] → s3.binder.stopped = true) ∧
      stTwoLevel.trace = tsC.flatten ++ tT1 ++ tT2 ++ tsB.flatten ∧
      (true : Bool) = !s3.binder.stopped :=
  @dispatch_phase_order (fun _ : Nat => CallbackAct.nop) [1] 0 "y"
    intTwoLevel true stTwoLevel rfl

/-- C6: when the bucket already holds a live entry with the same
`(callback, capture)` key, re-`listen`-ing writes back exactly the same
bucket with the matching entries' `passive`/`once` flags rewritten in
place: nothing is appended, the length is unchanged, and non-matching
entries keep their value and position. -/
theorem listen_idempotent {internal : Internal} {reg : Registry}
    {bkt : Bucket} {obj : Nat} {typ : String} {cb : Nat}
    {cap passive once : Bool}
    (hr : lookupN internal obj = some reg)
    (hb : lookupS reg typ = some bkt)
    (hmatch : bkt.any (matchKey cb cap) = true) :
    listenCore internal obj typ cb cap passive once =
      some (setN internal obj
        (setS reg typ (bkt.map (updKey cb cap passive once)))) ∧
    (bkt.map (updKey cb cap passive once)).length = bkt.length ∧
    (∀ l, matchKey cb cap l = true →
      updKey cb cap passive once l
        = { l with passive := passive, once := once }) ∧
    (∀ l, matchKey cb cap l = false →
      updKey cb cap passive once l = l) := by
  refine ⟨?_, List.length_map _ _, ?_, ?_⟩
  · simp [listenCore, hr, hb, listenUpdate_eq, hmatch]
  · intro l hl
    simp [updKey, hl]
  · intro l hl
    simp [updKey, hl]

/-- C6 witness: re-registering `(callback 4, bubble)` on the target's
bucket of the two-level scenario with new `passive`/`once` flags. -/
theorem listen_idempotent_witness :
    listenCore intTwoLevel 0 "y" 4 false true true =
      some (setN intTwoLevel 0
        (setS [("y", [⟨3, true, false, false, false⟩,
                      ⟨4, false, false, false, false⟩])] "y"
          ([⟨3, true, false, false, false⟩,
            ⟨4, false, false, false, false⟩].map
            (updKey 4 false true true)))) ∧
    (([⟨3, true, false, false, false⟩,
       ⟨4, false, false, false, false⟩] : Bucket).map
        (updKey 4 false true true)).length
      = ([⟨3, true, false, false, false⟩,
          ⟨4, false, false, false, false⟩] : Bucket).length ∧
    (∀ l, matchKey 4 false l = true →
      updKey 4 false true true l
        = { l with passive := true, once := true }) ∧
    (∀ l, matchKey 4 false l = false →
      updKey 4 false true true l = l) :=
  @listen_idempotent intTwoLevel
    [("y", [⟨3, true, false, false, false⟩,
            ⟨4, false, false, false, false⟩])]
    [⟨3, true, false, false, false⟩, ⟨4, false, false, false, false⟩]
    0 "y" 4 false true true rfl rfl (by decide)

/-- A dispatch operation preserves the no-empty-bucket invariant on the
registry store it leaves behind, whether it returns or throws. -/
theorem dispatch_op_noEmpty {cbs : Nat → CallbackAct} {anc : List Nat}
    {node : Nat} {typ : String} {internal : Internal}
    (hinv : noEmptyB internal = true) :
    noEmptyB (execOp internal (Op.dispatch cbs anc node typ)) = true := by
  unfold execOp
  dsimp only
  have kC := runCapture_noEmpty cbs typ anc.reverse (initState node internal)
    hinv
  cases hd : dispatchEvent cbs anc node typ internal with
  | ok p =>
    obtain ⟨b, s'⟩ := p
    dsimp only
    obtain ⟨sC, s1, s2, s3, hC, h1, h2, h3, hb, hs'⟩ :=
      dispatchEvent_ok_decomp hd
    rw [hC] at kC
    dsimp only [resultState] at kC
    have k1 := @runAtTargetCapture_noEmpty cbs typ node sC kC
    rw [h1] at k1
    dsimp only [resultState] at k1
    have k2 := @runAtTargetBubble_noEmpty cbs typ s1 k1
    rw [h2] at k2
    dsimp only [resultState] at k2
    rw [runBubblePhase_eq] at h3
    have k3 := runBubble_noEmpty cbs typ anc s2 k2
    rw [h3] at k3
    dsimp only [resultState] at k3
    subst hs'
    exact k3
  | error e =>
    dsimp only
    rcases dispatchEvent_err_decomp hd with hcap | ⟨sC, hC, h1⟩ |
      ⟨sC, s1, hC, h1, h2⟩ | ⟨sC, s1, s2, hC, h1, h2, h3⟩
    · rw [hcap] at kC
      dsimp only [resultState] at kC
      exact kC
    · rw [hC] at kC
      dsimp only [resultState] at kC
      have k1 := @runAtTargetCapture_noEmpty cbs typ node sC kC
      rw [h1] at k1
      dsimp only [resultState] at k1
      exact k1
    · rw [hC] at kC
      dsimp only [resultState] at kC
      have k1 := @runAtTargetCapture_noEmpty cbs typ node sC kC
      rw [h1] at k1
      dsimp only [resultState] at k1
      have k2 := @runAtTargetBubble_noEmpty cbs typ s1 k1
      rw [h2] at k2
      dsimp only [resultState] at k2
      exact k2
    · rw [hC] at kC
      dsimp only [resultState] at kC
      have k1 := @runAtTargetCapture_noEmpty cbs typ node sC kC
      rw [h1] at k1
      dsimp only [resultState] at k1
      have k2 := @runAtTargetBubble_noEmpty cbs typ s1 k1
      rw [h2] at k2
      dsimp only [resultState] at k2
      rw [runBubblePhase_eq] at h3
      have k3 := runBubble_noEmpty cbs typ anc s2 k2
      rw [h3] at k3
      dsimp only [resultState] at k3
      exact k3

/-- Every single operation preserves the invariant. -/
theorem execOp_noEmpty (internal : Internal) (op : Op)
    (hinv : noEmptyB internal = true) :
    noEmptyB (execOp internal op) = true := by
  cases op with
  | listen obj typ cb cap passive once =>
    unfold execOp
    dsimp only
    cases hl : listenCore internal obj typ cb cap passive once with
    | none => exact hinv
    | some int' =>
      dsimp only [Option.getD]
      exact listenCore_noEmpty hinv hl
  | unlisten obj typ cb cap =>
    unfold execOp
    dsimp only
    cases hl : unlistenCore internal obj typ cb cap with
    | none => exact hinv
    | some int' =>
      dsimp only [Option.getD]
      exact unlistenCore_noEmpty hinv hl
  | dispatch cbs anc node typ => exact dispatch_op_noEmpty hinv

/-- C7: through any sequence of `listen`, `unlisten` and `dispatch`
operations (including `once` auto-removal during dispatch, and the states
a throwing dispatch leaves behind), a registry store with no empty bucket
never acquires one: `unlisten` deletes a bucket the moment it becomes
empty, and `listen` always leaves the bucket it touched non-empty. -/
theorem no_empty_buckets_invariant (ops : List Op) :
    ∀ internal : Internal, noEmptyB internal = true →
      noEmptyB (execOps ops internal) = true := by
  induction ops with
  | nil => exact fun internal hinv => hinv
  | cons op rest ih =>
    intro internal hinv
    exact ih (execOp internal op) (execOp_noEmpty internal op hinv)

/-- C7 witness: a listen, an unlisten and a bucket-emptying dispatch on a
store holding a single `once` listener keep the invariant. -/
theorem no_empty_buckets_invariant_witness :
    noEmptyB (execOps opsMixed intOnce) = true :=
  no_empty_buckets_invariant opsMixed intOnce (by decide)

/-- C8: `listen`, `unlisten` and `fireListeners` throw exactly when the
object they act on has no registry; an unknown event type, a listener not
found by `unlisten` and a dispatch that finds no listener anywhere are
silent no-ops, the last returning `true` with nothing invoked.  (For
`fireListeners` the equivalence is about the component's own errors, so
callbacks are assumed not to throw — a callback exception is the
listener's, not the dispatcher's, see C9.) -/
theorem registry_missing_iff_error (internal : Internal) (obj : Nat)
    (typ : String) (cb : Nat) (cap passive once : Bool)
    (cbs : Nat → CallbackAct) (s : DispatchState) (anc : List Nat)
    (node : Nat) :
    (listenCore internal obj typ cb cap passive once = none ↔
      lookupN internal obj = none) ∧
    (unlistenCore internal obj typ cb cap = none ↔
      lookupN internal obj = none) ∧
    ((∀ n, cbs n ≠ .throwErr) →
      ((∃ e, fireListeners cbs cap typ s = .error e) ↔
        lookupN s.internal s.binder.handler = none)) ∧
    ((∀ a ∈ node :: anc, ∃ reg, lookupN internal a = some reg ∧
        lookupS reg typ = none) →
      ∃ s', dispatchEvent cbs anc node typ internal = .ok (true, s') ∧
        s'.trace = []) := by
  refine ⟨listenCore_none_iff internal obj typ cb cap passive once,
    unlistenCore_none_iff internal obj typ cb cap, ?_, ?_⟩
  · intro hcb
    constructor
    · rintro ⟨e, he⟩
      by_cases hx : lookupN s.internal s.binder.handler = none
      · exact hx
      · exfalso
        have hsome : (lookupN s.internal s.binder.handler).isSome = true := by
          cases hy : lookupN s.internal s.binder.handler with
          | none => exact absurd hy hx
          | some reg => rfl
        obtain ⟨s', hok, _⟩ := fireListeners_no_error hcb hsome
        rw [hok] at he
        cases he
    · intro hnone
      refine ⟨(.registryMissing, s), ?_⟩
      unfold fireListeners
      rw [hnone]
  · intro hsil
    have hsilrev : ∀ a ∈ anc.reverse,
        ∃ reg, lookupN (initState node internal).internal a = some reg ∧
          lookupS reg typ = none := by
      intro a ha
      exact hsil a (List.mem_cons_of_mem _ (List.mem_reverse.mp ha))
    obtain ⟨sA, hA, htrA, hintA, hstA⟩ :=
      runCapture_silent cbs typ anc.reverse (initState node internal)
        hsilrev
    have hstA' : sA.binder.stopped = false := by rw [hstA]; rfl
    obtain ⟨regN, hrN, hbN⟩ := hsil node (List.mem_cons_self node anc)
    have hrA : lookupN sA.internal node = some regN := by
      rw [hintA]
      exact hrN
    have hf1 : runAtTargetCapture cbs typ node sA
        = .ok (setPhaseHandler .AT_TARGET node sA) := by
      unfold runAtTargetCapture
      rw [if_neg (by simp [hstA'])]
      exact @fireListeners_silent cbs true typ
        (setPhaseHandler .AT_TARGET node sA) regN (by simpa using hrA) hbN
    have hf2 : runAtTargetBubble cbs typ (setPhaseHandler .AT_TARGET node sA)
        = .ok (setPhaseHandler .AT_TARGET node sA) := by
      unfold runAtTargetBubble
      rw [if_neg (by simp [hstA'])]
      exact @fireListeners_silent cbs false typ
        (setPhaseHandler .AT_TARGET node sA) regN (by simpa using hrA) hbN
    obtain ⟨sD, hD, htrD, hintD, hstD⟩ :=
      runBubble_silent cbs typ anc (setPhaseHandler .AT_TARGET node sA)
        (fun a ha => by
          obtain ⟨reg, hr, hb⟩ := hsil a (List.mem_cons_of_mem _ ha)
          refine ⟨reg, ?_, hb⟩
          simp only [setPhaseHandler_internal]
          rw [hintA]
          exact hr)
    have hsD : sD.binder.stopped = false := by
      rw [hstD]
      simpa using hstA'
    refine ⟨{ sD with binder := { sD.binder with phase := .NONE } }, ?_, ?_⟩
    · unfold dispatchEvent
      rw [hA]
      dsimp only
      rw [hf1]
      dsimp only
      rw [hf2]
      dsimp only
      rw [runBubblePhase_eq, hD]
      dsimp only
      rw [hsD]
      rfl
    · show sD.trace = []
      rw [htrD]
      simp only [setPhaseHandler_trace]
      rw [htrA]
      rfl

/-- C8 witness: the equivalences and the silent dispatch at concrete
inputs — the two-level store, a type `"zz"` registered nowhere, and a
state whose handler's registry is present. -/
theorem registry_missing_iff_error_witness :
    (listenCore intTwoLevel 0 "zz" 4 false true true = none ↔
      lookupN intTwoLevel 0 = none) ∧
    (unlistenCore intTwoLevel 0 "zz" 4 false = none ↔
      lookupN intTwoLevel 0 = none) ∧
    ((∀ n, (fun _ : Nat => CallbackAct.nop) n ≠ CallbackAct.throwErr) →
      ((∃ e, fireListeners (fun _ : Nat => CallbackAct.nop) false "zz"
          stPrevent = .error e) ↔
        lookupN stPrevent.internal stPrevent.binder.handler = none)) ∧
    ((∀ a ∈ [0, 1], ∃ reg, lookupN intTwoLevel a = some reg ∧
        lookupS reg "zz" = none) →
      ∃ s', dispatchEvent (fun _ : Nat => CallbackAct.nop) [1] 0 "zz"
          intTwoLevel = .ok (true, s') ∧ s'.trace = []) :=
  registry_missing_iff_error intTwoLevel 0 "zz" 4 false true true
    (fun _ : Nat => CallbackAct.nop) stPrevent [1] 0

/-- C9: an exception thrown by a listener callback is not caught anywhere:
`dispatch` (whose `finally` only stops the log thread) forwards the very
error `dispatchEvent` produced; at the moment of the throw the binder is
still in its traversal phase (never reset to `NONE`); the throwing
listener's record is the last of the trace, so no later listener of the
dispatch ran; and the error carries the registry store as already mutated
(`once` removals performed before the throw are kept). -/
theorem dispatch_propagates_callback_exception {cbs : Nat → CallbackAct}
    {anc : List Nat} {node : Nat} {typ : String} {internal : Internal}
    {e : DispatchError × DispatchState}
    (h : dispatch cbs anc node typ internal = .error e)
    (hk : e.1 = .callbackError) :
    dispatchEvent cbs anc node typ internal = .error e ∧
    e.2.binder.phase ≠ .NONE ∧
    ∃ pre r, e.2.trace = pre ++ [r] ∧ cbs r.callback = .throwErr := by
  have hde : dispatchEvent cbs anc node typ internal = .error e := h
  refine ⟨hde, ?_⟩
  rcases dispatchEvent_err_decomp hde with hcap | ⟨sC, hC, h1⟩ |
    ⟨sC, s1, hC, h1, h2⟩ | ⟨sC, s1, s2, hC, h1, h2, h3⟩
  · obtain ⟨hp, hcl⟩ := runCapture_err cbs typ anc.reverse _ e hcap
    exact ⟨(by rw [hp]; intro hc; cases hc), hcl hk⟩
  · obtain ⟨_, hp, hcl⟩ := runAtTargetCapture_err h1
    exact ⟨(by rw [hp]; intro hc; cases hc), hcl hk⟩
  · obtain ⟨hs1, hp, hcl⟩ := runAtTargetBubble_err h2
    obtain ⟨_, hstop1, hphase1, _, _, _, _⟩ := runAtTargetCapture_spec h1
    have hsC : sC.binder.stopped = false := by
      by_cases hsC' : sC.binder.stopped = true
      · have heq := hstop1 hsC'
        rw [heq] at hs1
        rw [hsC'] at hs1
        cases hs1
      · exact eq_false_of_ne_true hsC'
    obtain ⟨hph, _⟩ := hphase1 hsC
    refine ⟨?_, hcl hk⟩
    rw [hp, hph]
    intro hc
    cases hc
  · rw [runBubblePhase_eq] at h3
    obtain ⟨hp, hcl⟩ := runBubble_err cbs typ anc s2 e h3
    exact ⟨(by rw [hp]; intro hc; cases hc), hcl hk⟩

/-- C9 witness: a `once` listener fires and is removed, then a later
listener throws: the error escapes `dispatch` bearing the at-target phase,
a trace ending with the thrower, and the store without the removed `once`
entry. -/
theorem dispatch_propagates_callback_exception_witness :
    dispatchEvent cbsThrow [] 0 "z" intThrow = .error errThrow ∧
    errThrow.2.binder.phase ≠ .NONE ∧
    ∃ pre r, errThrow.2.trace = pre ++ [r] ∧
      cbsThrow r.callback = .throwErr :=
  @dispatch_propagates_callback_exception cbsThrow [] 0 "z" intThrow
    errThrow rfl rfl

end Mdln
